import Mathlib

/-!
# Trade-lifecycle chaincode (`part2.go`)

A shallow embedding of the chaincode in `src/part2.go` together with the parts of
the Go standard library it calls (`strconv.Atoi`, `strconv.Itoa`, `encoding/json`)
and of the host store (`shim.ChaincodeStub`).

Conventions of the embedding:

* a Go `string` / `[]byte` holding text is a `List Char` (a sequence of Unicode
  scalar values, i.e. well-formed UTF-8);
* a Go `int` is an `Int` in the 64-bit range `[-2^63, 2^63)`;
* `strings.ToLower` is a parameter `ToLower` of the functions that call it;
  `asciiToLower` is its restriction to ASCII, used on concrete ASCII inputs;
* a Go function returning `([]byte, error)` and mutating the stub returns a
  `Response × ChaincodeStub`.
-/

namespace Ruslan

/-- A Go string holding well-formed UTF-8 text. -/
abbrev GoString := List Char

/-! ## `strconv` -/

/-- Lower bound of the Go `int` type (64-bit). -/
def minInt : Int := -(2 ^ 63)

/-- Upper bound of the Go `int` type (64-bit). -/
def maxInt : Int := 2 ^ 63 - 1

/-- The value fits the Go `int` type. -/
def inIntRange (i : Int) : Prop := minInt ≤ i ∧ i ≤ maxInt

instance (i : Int) : Decidable (inIntRange i) := by
  unfold inIntRange; infer_instance

/-- An ASCII decimal digit. -/
def isDigit (c : Char) : Bool := decide ('0'.toNat ≤ c.toNat ∧ c.toNat ≤ '9'.toNat)

/-- Value of an ASCII decimal digit. -/
def digitVal (c : Char) : Nat := c.toNat - 48

/-- The ASCII digit for `d < 10`. -/
def digitChar (d : Nat) : Char := Char.ofNat (48 + d)

/-- The digit loop of `strconv.ParseUint(s, 10, 64)`: the value of the digits read so far is
`acc`; a character that is not a digit is a syntax error. -/
def parseDigits : List Char → Nat → Option Nat
  | [], acc => some acc
  | c :: cs, acc => if isDigit c then parseDigits cs (acc * 10 + digitVal c) else none

/-- Go `strconv.ParseInt(s, 10, 64)`: `none` stands for a returned error (syntax or range). -/
def ParseInt (s : GoString) : Option Int :=
  match s with
  | [] => none
  | c :: cs =>
    let neg : Bool := decide (c = '-')
    let body := if c = '+' ∨ c = '-' then cs else s
    match body with
    | [] => none
    | _ :: _ =>
      match parseDigits body 0 with
      | none => none
      | some un =>
        if !neg && decide (2 ^ 63 ≤ un) then none
        else if neg && decide (2 ^ 63 < un) then none
        else some (if neg then -(un : Int) else (un : Int))

/-- Go `strconv.Atoi`: `ParseInt(s, 10, 0)` converted to `int`. -/
def Atoi (s : GoString) : Option Int := ParseInt s

/-- Decimal digits of `n`, most significant first, in front of `acc`; `fuel` bounds the number
of digits. -/
def formatDigits : Nat → Nat → List Char → List Char
  | 0, _, acc => acc
  | fuel + 1, n, acc =>
    if n < 10 then digitChar n :: acc
    else formatDigits fuel (n / 10) (digitChar (n % 10) :: acc)

/-- Decimal text of a natural number. -/
def formatNat (n : Nat) : List Char := formatDigits (n + 1) n []

/-- Go `strconv.Itoa`: the decimal text of an `int`. -/
def Itoa (i : Int) : GoString :=
  if i < 0 then '-' :: formatNat i.natAbs else formatNat i.natAbs

/-! ## `strings` -/

/-- Go `unicode.ToLower` on ASCII; other characters are left as they are. -/
def asciiToLowerRune (c : Char) : Char :=
  if 'A'.toNat ≤ c.toNat ∧ c.toNat ≤ 'Z'.toNat then Char.ofNat (c.toNat + 32) else c

/-- Go `strings.ToLower` restricted to ASCII letters: on ASCII input it is `strings.ToLower`. -/
def asciiToLower (s : GoString) : GoString := s.map asciiToLowerRune

/-! ## `encoding/json`: values and the encoder -/

/-- A parsed JSON text. A number keeps its literal text; an object keeps its members in
source order, duplicates included. -/
inductive JSON where
  | null : JSON
  | bool (b : Bool) : JSON
  | num (lit : GoString) : JSON
  | str (s : GoString) : JSON
  | arr (elems : List JSON) : JSON
  | obj (members : List (GoString × JSON)) : JSON

/-- Lower-case hexadecimal digit. -/
def hexDigit (n : Nat) : Char :=
  if n < 10 then Char.ofNat (48 + n) else Char.ofNat (87 + n)

/-- How the encoder writes one character inside a string literal: `"` and `\` get a
backslash, newline, carriage return and tab their short escape, other control characters and
`<`, `>`, `&` the form `\u00XX`, U+2028 and U+2029 the form `\u202X`; everything else is
copied. Releases from Go 1.22 on write backspace and form feed as `\b` and `\f` where this
one writes `\u0008` and `\u000c`; the scanner reads both forms as the same character. -/
def encodeRune (c : Char) : List Char :=
  if c = '\\' ∨ c = '"' then ['\\', c]
  else if c = '\n' then ['\\', 'n']
  else if c = '\r' then ['\\', 'r']
  else if c = '\t' then ['\\', 't']
  else if c.toNat < 0x20 ∨ c = '<' ∨ c = '>' ∨ c = '&' then
    ['\\', 'u', '0', '0', hexDigit (c.toNat / 16), hexDigit (c.toNat % 16)]
  else if c = Char.ofNat 0x2028 ∨ c = Char.ofNat 0x2029 then
    ['\\', 'u', '2', '0', '2', hexDigit (c.toNat % 16)]
  else [c]

/-- Body of an encoded string literal (without the surrounding quotes). -/
def encodeRunes : GoString → List Char
  | [] => []
  | c :: cs => encodeRune c ++ encodeRunes cs

/-- The encoder's string literal for `s`. -/
def encodeString (s : GoString) : List Char := '"' :: (encodeRunes s ++ ['"'])

/-! ## `encoding/json`: the scanner and parser -/

/-- JSON insignificant white space. -/
def isSpace (c : Char) : Bool := decide (c = ' ' ∨ c = '\t' ∨ c = '\r' ∨ c = '\n')

/-- Drop leading white space. -/
def skipWS : List Char → List Char
  | [] => []
  | c :: cs => if isSpace c then skipWS cs else c :: cs

/-- Value of a hexadecimal digit (either case). -/
def hexVal (c : Char) : Option Nat :=
  if '0'.toNat ≤ c.toNat ∧ c.toNat ≤ '9'.toNat then some (c.toNat - 48)
  else if 'a'.toNat ≤ c.toNat ∧ c.toNat ≤ 'f'.toNat then some (c.toNat - 87)
  else if 'A'.toNat ≤ c.toNat ∧ c.toNat ≤ 'F'.toNat then some (c.toNat - 55)
  else none

/-- Value of four hexadecimal digits (`getu4` without the leading `\u`). -/
def hex4 (a b c d : Char) : Option Nat :=
  match hexVal a, hexVal b, hexVal c, hexVal d with
  | some x, some y, some z, some w => some (((x * 16 + y) * 16 + z) * 16 + w)
  | _, _, _, _ => none

/-- The replacement character U+FFFD. -/
def replacementChar : Char := Char.ofNat 0xFFFD

/-- A UTF-16 surrogate code unit. -/
def isSurrogate (n : Nat) : Bool := decide (0xD800 ≤ n ∧ n < 0xE000)

/-- Go `utf16.DecodeRune`: the code point of a valid surrogate pair. -/
def decodeSurrogates (hi lo : Nat) : Option Char :=
  if 0xD800 ≤ hi ∧ hi < 0xDC00 ∧ 0xDC00 ≤ lo ∧ lo < 0xE000 then
    some (Char.ofNat (0x10000 + (hi - 0xD800) * 1024 + (lo - 0xDC00)))
  else none

/-- The character denoted by a single-letter escape. -/
def simpleEscape (c : Char) : Option Char :=
  if c = '"' then some '"'
  else if c = '\\' then some '\\'
  else if c = '/' then some '/'
  else if c = 'b' then some (Char.ofNat 8)
  else if c = 'f' then some (Char.ofNat 12)
  else if c = 'n' then some '\n'
  else if c = 'r' then some '\r'
  else if c = 't' then some '\t'
  else none

/-- The low half of a surrogate pair written as `\uXXXX` at the head of the input, with the
input after it. -/
def lowSurrogate (hi : Nat) : List Char → Option (Char × List Char)
  | '\\' :: 'u' :: a :: b :: c :: d :: rest =>
    match hex4 a b c d with
    | some lo => (decodeSurrogates hi lo).map (fun r => (r, rest))
    | none => none
  | _ => none

/-- One step of scanning and unquoting a string literal: at the closing quote the result is
`(none, rest)`, otherwise the next decoded character with the input after it. An unescaped
control character, an unknown escape or the end of the input is a syntax error. A `\u` escape
of a surrogate is combined with a following low surrogate, and decodes to U+FFFD when it is
not part of a valid pair. -/
def stringStep : List Char → Option (Option Char × List Char)
  | [] => none
  | c :: rest =>
    if c = '"' then some (none, rest)
    else if c = '\\' then
      match rest with
      | [] => none
      | e :: rest1 =>
        if e = 'u' then
          match rest1 with
          | a :: b :: c1 :: d :: rest2 =>
            match hex4 a b c1 d with
            | none => none
            | some n =>
              if isSurrogate n then
                match lowSurrogate n rest2 with
                | some (r, rest3) => some (some r, rest3)
                | none => some (some replacementChar, rest2)
              else some (some (Char.ofNat n), rest2)
          | _ => none
        else (simpleEscape e).map (fun r => (some r, rest1))
    else if c.toNat < 0x20 then none
    else some (some c, rest)

/-- Scan and unquote a string literal whose opening quote has been consumed: the decoded text
and the input after the closing quote. `fuel` bounds the number of steps. -/
def parseStringBody : Nat → List Char → Option (GoString × List Char)
  | 0, _ => none
  | fuel + 1, s =>
    match stringStep s with
    | none => none
    | some (none, rest) => some ([], rest)
    | some (some r, rest) => (parseStringBody fuel rest).map (fun p => (r :: p.1, p.2))

/-- A string literal whose opening quote has been consumed. -/
def parseString (s : List Char) : Option (GoString × List Char) :=
  parseStringBody (s.length + 1) s

/-- Split off the longest prefix of decimal digits. -/
def spanDigits : List Char → List Char × List Char
  | [] => ([], [])
  | c :: cs => if isDigit c then ((c :: (spanDigits cs).1), (spanDigits cs).2) else ([], c :: cs)

/-- Integer part of a number: `0`, or a non-zero digit followed by digits. -/
def scanInt (s : List Char) : Option (List Char × List Char) :=
  match s with
  | [] => none
  | c :: cs =>
    if c = '0' then some (['0'], cs)
    else if isDigit c then some (c :: (spanDigits cs).1, (spanDigits cs).2)
    else none

/-- Optional fraction: `.` followed by at least one digit. -/
def scanFrac (s : List Char) : Option (List Char × List Char) :=
  match s with
  | c :: cs =>
    if c = '.' then
      match spanDigits cs with
      | ([], _) => none
      | (ds, rest) => some ('.' :: ds, rest)
    else some ([], s)
  | [] => some ([], [])

/-- Optional exponent: `e` or `E`, an optional sign, at least one digit. -/
def scanExp (s : List Char) : Option (List Char × List Char) :=
  match s with
  | c :: cs =>
    if c = 'e' ∨ c = 'E' then
      match cs with
      | sg :: cs1 =>
        if sg = '+' ∨ sg = '-' then
          match spanDigits cs1 with
          | ([], _) => none
          | (ds, rest) => some (c :: sg :: ds, rest)
        else
          match spanDigits cs with
          | ([], _) => none
          | (ds, rest) => some (c :: ds, rest)
      | [] => none
    else some ([], s)
  | [] => some ([], [])

/-- Scan a number literal: its text and the input after it. -/
def parseNumber (s : List Char) : Option (GoString × List Char) :=
  let (sign, s1) := match s with
    | c :: cs => if c = '-' then (['-'], cs) else ([], s)
    | [] => ([], [])
  match scanInt s1 with
  | none => none
  | some (ip, s2) =>
    match scanFrac s2 with
    | none => none
    | some (fp, s3) =>
      match scanExp s3 with
      | none => none
      | some (ep, s4) => some (sign ++ ip ++ fp ++ ep, s4)

/-- Consume the literal `lit` at the head of the input. -/
def expectLit : List Char → List Char → Option (List Char)
  | [], s => some s
  | _ :: _, [] => none
  | l :: ls, c :: cs => if c = l then expectLit ls cs else none

mutual

/-- Parse one JSON value (leading white space allowed): the value and the input after it.
`fuel` bounds the number of nested calls. -/
def parseValue : Nat → List Char → Option (JSON × List Char)
  | 0, _ => none
  | fuel + 1, s =>
    match skipWS s with
    | [] => none
    | c :: rest =>
      if c = '{' then
        match skipWS rest with
        | [] => none
        | c1 :: rest1 =>
          if c1 = '}' then some (JSON.obj [], rest1)
          else (parseMembers fuel (c1 :: rest1)).map (fun p => (JSON.obj p.1, p.2))
      else if c = '[' then
        match skipWS rest with
        | [] => none
        | c1 :: rest1 =>
          if c1 = ']' then some (JSON.arr [], rest1)
          else (parseElems fuel (c1 :: rest1)).map (fun p => (JSON.arr p.1, p.2))
      else if c = '"' then (parseString rest).map (fun p => (JSON.str p.1, p.2))
      else if c = '-' ∨ isDigit c then
        (parseNumber (c :: rest)).map (fun p => (JSON.num p.1, p.2))
      else if c = 't' then (expectLit ['r', 'u', 'e'] rest).map (fun r => (JSON.bool true, r))
      else if c = 'f' then
        (expectLit ['a', 'l', 's', 'e'] rest).map (fun r => (JSON.bool false, r))
      else if c = 'n' then (expectLit ['u', 'l', 'l'] rest).map (fun r => (JSON.null, r))
      else none

/-- Parse the members of a non-empty object up to and including the closing brace. -/
def parseMembers : Nat → List Char → Option (List (GoString × JSON) × List Char)
  | 0, _ => none
  | fuel + 1, s =>
    match skipWS s with
    | [] => none
    | c :: rest =>
      if c = '"' then
        match parseString rest with
        | none => none
        | some (key, rest1) =>
          match skipWS rest1 with
          | [] => none
          | c2 :: rest2 =>
            if c2 = ':' then
              match parseValue fuel rest2 with
              | none => none
              | some (v, rest3) =>
                match skipWS rest3 with
                | [] => none
                | c3 :: rest4 =>
                  if c3 = ',' then
                    (parseMembers fuel rest4).map (fun p => ((key, v) :: p.1, p.2))
                  else if c3 = '}' then some ([(key, v)], rest4)
                  else none
            else none
      else none

/-- Parse the elements of a non-empty array up to and including the closing bracket. -/
def parseElems : Nat → List Char → Option (List JSON × List Char)
  | 0, _ => none
  | fuel + 1, s =>
    match parseValue fuel s with
    | none => none
    | some (v, rest) =>
      match skipWS rest with
      | [] => none
      | c :: rest1 =>
        if c = ',' then (parseElems fuel rest1).map (fun p => (v :: p.1, p.2))
        else if c = ']' then some ([v], rest1)
        else none

end

/-- The syntax check and parse of a complete JSON text: one value, white space around it
allowed, nothing else. `none` is a syntax error. The fuel handed to the parser never runs out
on a text that parses (`parseJSON_fuel_adequate`). The library's limit on nesting (a text
nested deeper than 10000 levels is rejected) is not modelled. -/
def parseJSON (data : List Char) : Option JSON :=
  match parseValue (data.length + 1) data with
  | none => none
  | some (v, rest) => if skipWS rest = [] then some v else none

/-!
## `encoding/json`: decoding into the program's types

`json.Unmarshal` first checks the syntax of the whole text and leaves the target alone when
the check fails; it then stores the parsed value into the target. A value of the wrong kind
for its target records an error and the decoder goes on; a malformed text inside a quoted
number stops it. Releases of the library differ on whether a bare number met where a string
is expected stops the decoder: the model goes on, as current releases do, and no statement
below depends on that case.
-/

/-- The `Trade` struct. -/
structure Trade where
  TradeDate : GoString
  ValueDate : GoString
  Operation : GoString
  Quantity : Int
  Security : GoString
  Price : GoString
  Counterparty : GoString
  User : GoString
  Timestamp : GoString
  Settled : Int
  NeedsRevision : Int
  deriving DecidableEq

/-- The zero value of `Trade` (`var trade Trade`). -/
def zeroTrade : Trade :=
  { TradeDate := [], ValueDate := [], Operation := [], Quantity := 0, Security := [],
    Price := [], Counterparty := [], User := [], Timestamp := [], Settled := 0,
    NeedsRevision := 0 }

/-- The fields of `Trade`. -/
inductive TradeField where
  | TradeDate | ValueDate | Operation | Quantity | Security | Price | Counterparty | User
  | Timestamp | Settled | NeedsRevision
  deriving DecidableEq

/-- The JSON name in the field's struct tag. -/
def TradeField.jsonName : TradeField → GoString
  | .TradeDate => "tradedate".toList
  | .ValueDate => "valuedate".toList
  | .Operation => "operation".toList
  | .Quantity => "quantity".toList
  | .Security => "security".toList
  | .Price => "price".toList
  | .Counterparty => "counterparty".toList
  | .User => "user".toList
  | .Timestamp => "timestamp".toList
  | .Settled => "settled".toList
  | .NeedsRevision => "needsrevision".toList

/-- The field is an `int` whose tag carries the `,string` option. -/
def TradeField.quotedInt : TradeField → Bool
  | .Quantity => true
  | .Settled => true
  | .NeedsRevision => true
  | _ => false

/-- The fields in declaration order. -/
def tradeFields : List TradeField :=
  [.TradeDate, .ValueDate, .Operation, .Quantity, .Security, .Price, .Counterparty, .User,
   .Timestamp, .Settled, .NeedsRevision]

/-- Assign a string field (no effect on an `int` field). -/
def Trade.setString (t : Trade) (f : TradeField) (s : GoString) : Trade :=
  match f with
  | .TradeDate => { t with TradeDate := s }
  | .ValueDate => { t with ValueDate := s }
  | .Operation => { t with Operation := s }
  | .Security => { t with Security := s }
  | .Price => { t with Price := s }
  | .Counterparty => { t with Counterparty := s }
  | .User => { t with User := s }
  | .Timestamp => { t with Timestamp := s }
  | _ => t

/-- Assign an `int` field (no effect on a string field). -/
def Trade.setInt (t : Trade) (f : TradeField) (n : Int) : Trade :=
  match f with
  | .Quantity => { t with Quantity := n }
  | .Settled => { t with Settled := n }
  | .NeedsRevision => { t with NeedsRevision := n }
  | _ => t

/-- Character `k` of an object key matches character `n` of a field name (a lower-case ASCII
letter) under simple case folding: the letter itself, its upper case, and for `k` and `s` also
the Kelvin sign U+212A and the long s U+017F. -/
def foldRune (n k : Char) : Bool :=
  decide (k = n ∨ k.toNat + 32 = n.toNat ∨ (n = 'k' ∧ k = Char.ofNat 0x212A) ∨
    (n = 's' ∧ k = Char.ofNat 0x17F))

/-- Case-insensitive match of an object key against a field name. -/
def equalFold : GoString → GoString → Bool
  | [], [] => true
  | n :: ns, k :: ks => foldRune n k && equalFold ns ks
  | _, _ => false

/-- The field an object key is decoded into: a field whose name is exactly the key, else the
first field whose name matches the key ignoring case. -/
def findField (key : GoString) : Option TradeField :=
  match tradeFields.find? (fun f => decide (f.jsonName = key)) with
  | some f => some f
  | none => tradeFields.find? (fun f => equalFold f.jsonName key)

/-- Store the text `q` of a JSON string into an `int` field with the `,string` option. The
flag is `true` when the decoder stops at this member: the text starts neither like a literal
nor like a number, or it is a malformed string literal. Otherwise the field is set when the
text is an integer in range and left alone (an error being recorded) when it is not. This is
the decoder of `encoding/json` as the program was written against; its successor (json v2)
goes on after a malformed quoted integer and accepts a leading `+`. -/
def storeQuotedInt (t : Trade) (f : TradeField) (q : GoString) : Trade × Bool :=
  match q with
  | [] => (t, false)
  | c :: rest =>
    if c = 'n' ∨ c = 't' ∨ c = 'f' then (t, false)
    else if c = '"' then
      match parseString rest with
      | some (_, []) => (t, false)
      | _ => (t, true)
    else if c = '-' ∨ isDigit c then
      match ParseInt q with
      | some n => (t.setInt f n, false)
      | none => (t, false)
    else (t, true)

/-- Store a member's value into the field it names; the flag is `true` when the decoder stops
here. A string field takes a JSON string; an `int` field with the `,string` option takes a JSON
string holding the number. `null` stores nothing, and a value of another kind records an
error and leaves the field alone. -/
def storeField (t : Trade) (f : TradeField) (v : JSON) : Trade × Bool :=
  if f.quotedInt then
    match v with
    | .str q => storeQuotedInt t f q
    | _ => (t, false)
  else
    match v with
    | .str s => (t.setString f s, false)
    | _ => (t, false)

/-- Decode the members of an object into the struct, in source order. -/
def storeMembers : List (GoString × JSON) → Trade → Trade
  | [], t => t
  | (k, v) :: ms, t =>
    match findField k with
    | none => storeMembers ms t
    | some f =>
      if (storeField t f v).2 then (storeField t f v).1
      else storeMembers ms (storeField t f v).1

/-- The effect of `json.Unmarshal(data, &trade)` on `trade`; the returned error is not
modelled, the program never looks at it. A syntax error or a value that is not an object
leaves the struct as it was. -/
def UnmarshalTrade (data : List Char) (trade : Trade) : Trade :=
  match parseJSON data with
  | some (.obj ms) => storeMembers ms trade
  | _ => trade

/-- The string an array element decodes to in a fresh `[]string`: the text of a JSON string,
the zero value for anything else. -/
def elemString : JSON → GoString
  | .str s => s
  | _ => []

/-- A Go `[]string`: `none` is the nil slice. -/
abbrev StringSlice := Option (List GoString)

/-- The elements of a slice (none for the nil slice). -/
def StringSlice.elems (v : StringSlice) : List GoString := v.getD []

/-- Go `append(v, s)`. -/
def StringSlice.append (v : StringSlice) (s : GoString) : StringSlice := some (v.elems ++ [s])

/-- The effect of `json.Unmarshal(data, &v)` on `var v []string` (nil before the call): an
array gives its elements, anything else (also a syntax error) leaves the slice nil. -/
def UnmarshalStrings (data : List Char) : StringSlice :=
  match parseJSON data with
  | some (.arr xs) => some (xs.map elemString)
  | _ => none

/-- Whether `json.Unmarshal(data, &v)` returns an error for `var v []string`: the text is not
JSON, or it is neither an array nor `null`, or an element of the array is neither a string
nor `null`. -/
def UnmarshalStringsFails (data : List Char) : Bool :=
  match parseJSON data with
  | some (.arr xs) =>
    xs.any (fun x => match x with
      | .str _ => false
      | .null => false
      | _ => true)
  | some .null => false
  | _ => true

/-- Comma-separated encoded elements of an array of strings. -/
def encodeElems : List GoString → List Char
  | [] => []
  | [s] => encodeString s
  | s :: t :: rest => encodeString s ++ ',' :: encodeElems (t :: rest)

/-- Go `json.Marshal` of a `[]string`: `null` for the nil slice. -/
def MarshalStrings (v : StringSlice) : List Char :=
  match v with
  | none => "null".toList
  | some xs => '[' :: (encodeElems xs ++ [']'])

/-- The value of a string field (empty for an `int` field). -/
def Trade.getString (t : Trade) (f : TradeField) : GoString :=
  match f with
  | .TradeDate => t.TradeDate
  | .ValueDate => t.ValueDate
  | .Operation => t.Operation
  | .Security => t.Security
  | .Price => t.Price
  | .Counterparty => t.Counterparty
  | .User => t.User
  | .Timestamp => t.Timestamp
  | _ => []

/-- The value of an `int` field (zero for a string field). -/
def Trade.getInt (t : Trade) (f : TradeField) : Int :=
  match f with
  | .Quantity => t.Quantity
  | .Settled => t.Settled
  | .NeedsRevision => t.NeedsRevision
  | _ => 0

/-- The encoder's text for a field's value: a string literal for a string field, the decimal
text between quotes for an `int` field with the `,string` option. -/
def encodeField (t : Trade) (f : TradeField) : List Char :=
  if f.quotedInt then '"' :: (Itoa (t.getInt f) ++ ['"']) else encodeString (t.getString f)

/-- The members of an encoded object: the name as a string literal, a colon and the encoded
value, with commas between the members. -/
def encodeMembers : List (GoString × List Char) → List Char
  | [] => []
  | [m] => encodeString m.1 ++ ':' :: m.2
  | m :: m1 :: ms => encodeString m.1 ++ ':' :: (m.2 ++ ',' :: encodeMembers (m1 :: ms))

/-- Go `json.Marshal` of a `Trade`: the fields in declaration order under their JSON names. -/
def MarshalTrade (t : Trade) : List Char :=
  '{' :: (encodeMembers (tradeFields.map (fun f => (f.jsonName, encodeField t f))) ++ ['}'])

/-! ## The host store (`shim.ChaincodeStub`) -/

/-- The stub: the world state seen by the running transaction, and for each key the error
(if any) with which the host answers a read or a write of that key. -/
structure ChaincodeStub where
  state : GoString → Option GoString
  getErr : GoString → Option String
  putErr : GoString → Option String

/-- Go `stub.GetState(key)`: the bytes under `key`, none for an absent key. -/
def ChaincodeStub.GetState (stub : ChaincodeStub) (key : GoString) : Except String GoString :=
  match stub.getErr key with
  | some e => .error e
  | none => .ok ((stub.state key).getD [])

/-- The stub with `value` written under `key`. -/
def ChaincodeStub.set (stub : ChaincodeStub) (key value : GoString) : ChaincodeStub :=
  { stub with state := fun k => if k = key then some value else stub.state k }

/-- Go `stub.PutState(key, value)`: the stub after the write, or the host's error. -/
def ChaincodeStub.PutState (stub : ChaincodeStub) (key value : GoString) :
    Except String ChaincodeStub :=
  match stub.putErr key with
  | some e => .error e
  | none => .ok (stub.set key value)

/-- What a chaincode function returns: `([]byte, error)`. -/
abbrev Response := Except String GoString

/-- The response is an error. -/
def Response.isError (r : Response) : Bool :=
  match r with
  | .error _ => true
  | .ok _ => false

/-! ## The chaincode -/

/-- The key of the trade index. -/
def tradeIndexStr : GoString := "_tradeindex".toList

namespace SimpleChaincode

/-- Function `init`: reset the test variable and the trade index. -/
def init (stub : ChaincodeStub) (args : List GoString) : Response × ChaincodeStub :=
  if args.length ≠ 1 then (.error "Incorrect number of arguments. Expecting 1", stub)
  else
    match Atoi (args.getD 0 []) with
    | none => (.error "Expecting integer value for asset holding", stub)
    | some Aval =>
      match stub.PutState "abc".toList (Itoa Aval) with
      | .error e => (.error e, stub)
      | .ok stub1 =>
        let empty : StringSlice := none
        let jsonAsBytes := MarshalStrings empty
        match stub1.PutState tradeIndexStr jsonAsBytes with
        | .error e => (.error e, stub1)
        | .ok stub2 => (.ok [], stub2)

/-- Function `read`: return the bytes under a key. -/
def read (stub : ChaincodeStub) (args : List GoString) : Response × ChaincodeStub :=
  if args.length ≠ 1 then
    (.error "Incorrect number of arguments. Expecting key of the value to query", stub)
  else
    let key := args.getD 0 []
    match stub.GetState key with
    | .error _ =>
      (.error ("\x7b\"Error\":\"Failed to get state for " ++ String.mk key ++ "\"\x7d"), stub)
    | .ok valAsbytes => (.ok valAsbytes, stub)

/-- Function `write`: store a value under a key. -/
def write (stub : ChaincodeStub) (args : List GoString) : Response × ChaincodeStub :=
  if args.length ≠ 2 then
    (.error ("Incorrect number of arguments. Expecting 2. " ++
      "timestamp of the variable and value to set"), stub)
  else
    let timestamp := args.getD 0 []
    let value := args.getD 1 []
    match stub.PutState timestamp value with
    | .error e => (.error e, stub)
    | .ok stub1 => (.ok [], stub1)

/-- The hand-assembled JSON text of a new trade. -/
def tradeJSON (tradedate valuedate operation : GoString) (quantity : Int)
    (security price counterparty user timestamp : GoString) (settled needsrevision : Int) :
    List Char :=
  "\x7b\"tradedate\": \"".toList ++ tradedate ++ "\", \"valuedate\": \"".toList ++ valuedate ++
  "\", \"operation\": \"".toList ++ operation ++ "\", \"quantity\": ".toList ++ Itoa quantity ++
  ", \"security\": \"".toList ++ security ++ "\", \"price\": \"".toList ++ price ++
  "\", \"counterparty\": \"".toList ++ counterparty ++ "\", \"user\": \"".toList ++ user ++
  "\", \"timestamp\": \"".toList ++ timestamp ++ "\", \"settled\": \"".toList ++ Itoa settled ++
  "\", \"needsrevision\": \"".toList ++ Itoa needsrevision ++ "\"\x7d".toList

/-- Function `create_and_submit_trade`: store a new trade under its timestamp and append the
timestamp to the trade index. The result of the last `PutState` is assigned and never looked
at. -/
def create_and_submit_trade (ToLower : GoString → GoString) (stub : ChaincodeStub)
    (args : List GoString) : Response × ChaincodeStub :=
  if args.length ≠ 11 then (.error "Incorrect number of arguments. Expecting 11", stub)
  else
    let tradedate := ToLower (args.getD 0 [])
    let valuedate := ToLower (args.getD 1 [])
    let operation := ToLower (args.getD 2 [])
    match Atoi (args.getD 3 []) with
    | none => (.error "4th argument must be a numeric string", stub)
    | some quantity =>
      let security := ToLower (args.getD 4 [])
      let price := ToLower (args.getD 5 [])
      let counterparty := ToLower (args.getD 6 [])
      let user := ToLower (args.getD 7 [])
      let timestamp := ToLower (args.getD 8 [])
      match Atoi (args.getD 9 []) with
      | none => (.error "9th argument must be a numeric string, either 0 or 1", stub)
      | some settled =>
        match Atoi (args.getD 10 []) with
        | none => (.error "10th argument must be a numeric string, either 0 or 1", stub)
        | some needsrevision =>
          let str := tradeJSON tradedate valuedate operation quantity security price
            counterparty user timestamp settled needsrevision
          match stub.PutState timestamp str with
          | .error e => (.error e, stub)
          | .ok stub1 =>
            match stub1.GetState tradeIndexStr with
            | .error _ => (.error "Failed to get value for key _tradeIndex", stub1)
            | .ok tradesAsBytes =>
              let tradeIndex := UnmarshalStrings tradesAsBytes
              let tradeIndex := tradeIndex.append timestamp
              let jsonAsBytes := MarshalStrings tradeIndex
              match stub1.PutState tradeIndexStr jsonAsBytes with
              | .error _ => (.ok [], stub1)
              | .ok stub2 => (.ok [], stub2)

/-- Function `mark_revision_needed`: read the trade under the lower-cased timestamp, set the
lower-cased user and `NeedsRevision = 1`, write it back. The decoder's error is dropped. -/
def mark_revision_needed (ToLower : GoString → GoString) (stub : ChaincodeStub)
    (args : List GoString) : Response × ChaincodeStub :=
  if args.length ≠ 2 then (.error "Incorrect number of arguments. Expecting 11", stub)
  else if (args.getD 0 []).length ≤ 0 then
    (.error "1st argument must be a non-empty string", stub)
  else if (args.getD 1 []).length ≤ 0 then
    (.error "2nd argument must be a non-empty string", stub)
  else
    let timestamp := ToLower (args.getD 0 [])
    let newUser := ToLower (args.getD 1 [])
    match stub.GetState timestamp with
    | .error _ => (.error "Failed to get value for key timestamp", stub)
    | .ok tradeAsBytes =>
      let trade := UnmarshalTrade tradeAsBytes zeroTrade
      let trade := { trade with User := newUser, NeedsRevision := 1 }
      let bytes := MarshalTrade trade
      match stub.PutState timestamp bytes with
      | .error e => (.error e, stub)
      | .ok stub1 => (.ok [], stub1)

/-- Function `mark_revised`: as `mark_revision_needed`, with `NeedsRevision = 0`. -/
def mark_revised (ToLower : GoString → GoString) (stub : ChaincodeStub)
    (args : List GoString) : Response × ChaincodeStub :=
  if args.length ≠ 2 then (.error "Incorrect number of arguments. Expecting 11", stub)
  else if (args.getD 0 []).length ≤ 0 then
    (.error "1st argument must be a non-empty string", stub)
  else if (args.getD 1 []).length ≤ 0 then
    (.error "2nd argument must be a non-empty string", stub)
  else
    let timestamp := ToLower (args.getD 0 [])
    let newUser := ToLower (args.getD 1 [])
    match stub.GetState timestamp with
    | .error _ => (.error "Failed to get value for key timestamp", stub)
    | .ok tradeAsBytes =>
      let trade := UnmarshalTrade tradeAsBytes zeroTrade
      let trade := { trade with User := newUser, NeedsRevision := 0 }
      let bytes := MarshalTrade trade
      match stub.PutState timestamp bytes with
      | .error e => (.error e, stub)
      | .ok stub1 => (.ok [], stub1)

/-- Function `enrich_and_settle`: as `mark_revision_needed`, with `NeedsRevision = 0` and
`Settled = 1`. -/
def enrich_and_settle (ToLower : GoString → GoString) (stub : ChaincodeStub)
    (args : List GoString) : Response × ChaincodeStub :=
  if args.length ≠ 2 then (.error "Incorrect number of arguments. Expecting 2", stub)
  else if (args.getD 0 []).length ≤ 0 then
    (.error "1st argument must be a non-empty string", stub)
  else if (args.getD 1 []).length ≤ 0 then
    (.error "2nd argument must be a non-empty string", stub)
  else
    let timestamp := ToLower (args.getD 0 [])
    let newUser := ToLower (args.getD 1 [])
    match stub.GetState timestamp with
    | .error _ => (.error "Failed to get value for key timestamp", stub)
    | .ok tradeAsBytes =>
      let trade := UnmarshalTrade tradeAsBytes zeroTrade
      let trade := { trade with User := newUser, NeedsRevision := 0, Settled := 1 }
      let bytes := MarshalTrade trade
      match stub.PutState timestamp bytes with
      | .error e => (.error e, stub)
      | .ok stub1 => (.ok [], stub1)

/-- Method `Run`: entry point for invocations. -/
def Run (ToLower : GoString → GoString) (stub : ChaincodeStub) (function : GoString)
    (args : List GoString) : Response × ChaincodeStub :=
  if function = "init".toList then init stub args
  else if function = "write".toList then write stub args
  else if function = "create_and_submit_trade".toList then
    create_and_submit_trade ToLower stub args
  else if function = "mark_revision_needed".toList then mark_revision_needed ToLower stub args
  else if function = "mark_revised".toList then mark_revised ToLower stub args
  else if function = "enrich_and_settle".toList then enrich_and_settle ToLower stub args
  else (.error "Received unknown function invocation", stub)

/-- Method `Invoke`: entry point for invocations. -/
def Invoke (ToLower : GoString → GoString) (stub : ChaincodeStub) (function : GoString)
    (args : List GoString) : Response × ChaincodeStub :=
  if function = "init".toList then init stub args
  else if function = "write".toList then write stub args
  else if function = "create_and_submit_trade".toList then
    create_and_submit_trade ToLower stub args
  else if function = "mark_revision_needed".toList then mark_revision_needed ToLower stub args
  else if function = "mark_revised".toList then mark_revised ToLower stub args
  else if function = "enrich_and_settle".toList then enrich_and_settle ToLower stub args
  else (.error "Received unknown function invocation", stub)

/-- Method `Init`: entry point for deployment. -/
def Init (stub : ChaincodeStub) (function : GoString) (args : List GoString) :
    Response × ChaincodeStub :=
  if function = "init".toList then init stub args
  else (.error "Received unknown function invocation", stub)

/-- Method `Query`: entry point for queries. -/
def Query (stub : ChaincodeStub) (function : GoString) (args : List GoString) :
    Response × ChaincodeStub :=
  if function = "read".toList then read stub args
  else (.error "Received unknown function query", stub)

end SimpleChaincode

/-! ## Observations used in the statements -/

/-- The trade index as the program decodes it from the store. -/
def tradeIndexOf (stub : ChaincodeStub) : List GoString :=
  (UnmarshalStrings ((stub.state tradeIndexStr).getD [])).elems

/-- The trade the program decodes from the bytes stored under `key`. -/
def tradeAt (stub : ChaincodeStub) (key : GoString) : Trade :=
  UnmarshalTrade ((stub.state key).getD []) zeroTrade

/-- The argument count each function dispatched by `Invoke` tests for. -/
def expectedArgs (function : GoString) : Option Nat :=
  if function = "init".toList then some 1
  else if function = "write".toList then some 2
  else if function = "create_and_submit_trade".toList then some 11
  else if function = "mark_revision_needed".toList then some 2
  else if function = "mark_revised".toList then some 2
  else if function = "enrich_and_settle".toList then some 2
  else none

/-- The names `Invoke` dispatches on. -/
def invokeNames : List GoString :=
  ["init".toList, "write".toList, "create_and_submit_trade".toList,
   "mark_revision_needed".toList, "mark_revised".toList, "enrich_and_settle".toList]

/-- A sequence of `create_and_submit_trade` calls, one per argument list, each on the stub
the previous one left: the responses in call order and the final stub. -/
def runCreates (ToLower : GoString → GoString) :
    ChaincodeStub → List (List GoString) → List Response × ChaincodeStub
  | stub, [] => ([], stub)
  | stub, args :: rest =>
    let r := SimpleChaincode.create_and_submit_trade ToLower stub args
    let rs := runCreates ToLower r.2 rest
    (r.1 :: rs.1, rs.2)

/-- An argument list `create_and_submit_trade` accepts: eleven arguments, the 4th, 10th and
11th parsing as integers. -/
def ValidTradeArgs (args : List GoString) : Prop :=
  args.length = 11 ∧ (Atoi (args.getD 3 [])).isSome ∧ (Atoi (args.getD 9 [])).isSome ∧
    (Atoi (args.getD 10 [])).isSome

instance (args : List GoString) : Decidable (ValidTradeArgs args) := by
  unfold ValidTradeArgs; infer_instance

/-- An empty store on which every read and write succeeds. -/
def emptyStub : ChaincodeStub :=
  { state := fun _ => none, getErr := fun _ => none, putErr := fun _ => none }

/-- An empty store on which writing the trade index fails and everything else succeeds. -/
def indexWriteFailsStub : ChaincodeStub :=
  { state := fun _ => none, getErr := fun _ => none,
    putErr := fun k => if k = tradeIndexStr then some "PutState failed" else none }

/-- The empty store after `write("T1", ...)` of a trade text with `needsrevision` 1 and
`settled` 0: a record under a key that is not lower-case. -/
def upperKeyStub : ChaincodeStub :=
  (SimpleChaincode.write emptyStub
    ["T1".toList, "\x7b\"settled\":\"0\",\"needsrevision\":\"1\"\x7d".toList]).2

/-- The argument list of the example trade with a double quote as its trade date. -/
def quotedDateArgs : List GoString :=
  ["\"".toList, "2015-01-02".toList, "buy".toList, "100".toList, "GOOG".toList,
   "500".toList, "cpty1".toList, "alice".toList, "t1".toList, "0".toList, "0".toList]

/-- The argument list of the example trade, with timestamp `ts` and user `user`. -/
def exampleArgs (user ts : String) : List GoString :=
  ["2015-01-01".toList, "2015-01-02".toList, "buy".toList, "100".toList, "GOOG".toList,
   "500".toList, "cpty1".toList, user.toList, ts.toList, "0".toList, "0".toList]

/-- The store left by `init` with the seed `7` and one `create_and_submit_trade` with the
timestamp `t1`, starting from the empty store: the text `7` under `abc`, an index with the
entry `t1`. -/
def indexedStub : ChaincodeStub :=
  (runCreates asciiToLower (SimpleChaincode.init emptyStub ["7".toList]).2
    [exampleArgs "alice" "t1"]).2

/-- The example trade with the timestamp `T1`, `settled` 1 and `needsrevision` 1 stored by
`create_and_submit_trade` on the empty store: a record under `t1`. -/
def flaggedTradeStub : ChaincodeStub :=
  (SimpleChaincode.create_and_submit_trade asciiToLower emptyStub
    ["2015-01-01".toList, "2015-01-02".toList, "buy".toList, "100".toList, "GOOG".toList,
     "500".toList, "cpty1".toList, "alice".toList, "T1".toList, "1".toList, "1".toList]).2

/-- The example trade with the timestamp `T1`, `settled` 0 and `needsrevision` 1 stored by
`create_and_submit_trade` on the empty store: a record under `t1`. -/
def unsettledTradeStub : ChaincodeStub :=
  (SimpleChaincode.create_and_submit_trade asciiToLower emptyStub
    ["2015-01-01".toList, "2015-01-02".toList, "buy".toList, "100".toList, "GOOG".toList,
     "500".toList, "cpty1".toList, "alice".toList, "T1".toList, "0".toList, "1".toList]).2

/-! ## Notions used in the proofs -/

/-- The shape the three marking functions share: check the two arguments, read and decode the
trade under the lower-cased timestamp, apply `update` to it with the lower-cased user, encode
it and write it back. -/
def markTrade (update : Trade → GoString → Trade) (ToLower : GoString → GoString)
    (stub : ChaincodeStub) (args : List GoString) (countMsg : String) :
    Response × ChaincodeStub :=
  if args.length ≠ 2 then (.error countMsg, stub)
  else if (args.getD 0 []).length ≤ 0 then
    (.error "1st argument must be a non-empty string", stub)
  else if (args.getD 1 []).length ≤ 0 then
    (.error "2nd argument must be a non-empty string", stub)
  else
    match stub.GetState (ToLower (args.getD 0 [])) with
    | .error _ => (.error "Failed to get value for key timestamp", stub)
    | .ok tradeAsBytes =>
      match stub.PutState (ToLower (args.getD 0 []))
        (MarshalTrade (update (UnmarshalTrade tradeAsBytes zeroTrade)
          (ToLower (args.getD 1 [])))) with
      | .error e => (.error e, stub)
      | .ok stub1 => (.ok [], stub1)

/-- Every read and every write of the store succeeds. -/
def ChaincodeStub.NoFaults (stub : ChaincodeStub) : Prop :=
  ∀ k, stub.getErr k = none ∧ stub.putErr k = none

/-- A decimal numeral: a digit followed by digits, the first being `0` only when alone. -/
def IsNumeral (s : List Char) : Prop :=
  ∃ d ds, s = d :: ds ∧ isDigit d = true ∧ (∀ c ∈ ds, isDigit c = true) ∧ (d = '0' → ds = [])

/-- A character the scanner copies from inside a string literal as it is. -/
def Plain (c : Char) : Prop := c ≠ '"' ∧ c ≠ '\\' ∧ ¬ c.toNat < 0x20

instance (c : Char) : Decidable (Plain c) := by
  unfold Plain; infer_instance

/-- Every character of the string is copied by the scanner as it is: the string holds no
double quote, no backslash and no control character. -/
def PlainStr (s : GoString) : Prop := ∀ c ∈ s, Plain c

instance (s : GoString) : Decidable (PlainStr s) := by
  unfold PlainStr; infer_instance

/-- The string arguments of `create_and_submit_trade`, lower-cased, hold no double quote, no
backslash and no control character. -/
def CleanTradeArgs (ToLower : GoString → GoString) (args : List GoString) : Prop :=
  ∀ i ∈ [0, 1, 2, 4, 5, 6, 7, 8], PlainStr (ToLower (args.getD i []))

instance (ToLower : GoString → GoString) (args : List GoString) :
    Decidable (CleanTradeArgs ToLower args) := by
  unfold CleanTradeArgs; infer_instance

/-- The text `body` between quotes is a string literal for `s`, whatever follows the closing
quote. -/
def StrText (body : List Char) (s : GoString) : Prop :=
  ∀ rest, parseString (body ++ '"' :: rest) = some (s, rest)

/-- The text between the quotes of a field's encoded value. -/
def fieldBody (t : Trade) (f : TradeField) : List Char :=
  if f.quotedInt then Itoa (t.getInt f) else encodeRunes (t.getString f)

/-- The string a field's encoded value is a literal for. -/
def fieldText (t : Trade) (f : TradeField) : GoString :=
  if f.quotedInt then Itoa (t.getInt f) else t.getString f

/-- The `int` fields fit the Go `int` type. -/
def Trade.WF (t : Trade) : Prop :=
  inIntRange t.Quantity ∧ inIntRange t.Settled ∧ inIntRange t.NeedsRevision

/-- The object the hand-assembled text of a trade parses to. -/
def tradeJSONMembers (td vd op : GoString) (q : Int) (sec pr cp us ts : GoString)
    (st nr : Int) : List (GoString × JSON) :=
  [(TradeField.TradeDate.jsonName, JSON.str td), (TradeField.ValueDate.jsonName, JSON.str vd),
   (TradeField.Operation.jsonName, JSON.str op),
   (TradeField.Quantity.jsonName, JSON.num (Itoa q)),
   (TradeField.Security.jsonName, JSON.str sec), (TradeField.Price.jsonName, JSON.str pr),
   (TradeField.Counterparty.jsonName, JSON.str cp), (TradeField.User.jsonName, JSON.str us),
   (TradeField.Timestamp.jsonName, JSON.str ts),
   (TradeField.Settled.jsonName, JSON.str (Itoa st)),
   (TradeField.NeedsRevision.jsonName, JSON.str (Itoa nr))]

/-! ## Theorems -/

open SimpleChaincode

set_option maxRecDepth 100000

theorem digitChar_isDigit (d : Nat) (h : d < 10) : isDigit (digitChar d) = true := by
  interval_cases d <;> decide

theorem digitVal_digitChar (d : Nat) (h : d < 10) : digitVal (digitChar d) = d := by
  interval_cases d <;> decide

theorem digitChar_eq_zero (d : Nat) (h : d < 10) (h0 : digitChar d = '0') : d = 0 := by
  interval_cases d <;> first | rfl | (exact absurd h0 (by decide))

theorem parseDigits_formatDigits (fuel : Nat) :
    ∀ (n : Nat) (acc : List Char), n < fuel →
      parseDigits (formatDigits fuel n acc) 0 = parseDigits acc n := by
  induction fuel with
  | zero => intro n acc h; omega
  | succ f ih =>
    intro n acc h
    unfold formatDigits
    by_cases hn : n < 10
    · simp [hn, parseDigits, digitChar_isDigit n hn, digitVal_digitChar n hn]
    · simp only [hn, if_false]
      rw [ih (n / 10) _ (by omega)]
      have hm : n % 10 < 10 := Nat.mod_lt _ (by decide)
      simp only [parseDigits, digitChar_isDigit _ hm, digitVal_digitChar _ hm, if_true]
      congr 1
      omega

theorem parseDigits_formatNat (n : Nat) : parseDigits (formatNat n) 0 = some n := by
  unfold formatNat
  rw [parseDigits_formatDigits (n + 1) n [] (by omega)]
  rfl

theorem formatDigits_shape (fuel : Nat) :
    ∀ (n : Nat) (acc : List Char), n < fuel →
      ∃ d ds, formatDigits fuel n acc = d :: (ds ++ acc) ∧ isDigit d = true ∧
        (∀ c ∈ ds, isDigit c = true) ∧ (d = '0' → ds = [] ∧ n = 0) := by
  induction fuel with
  | zero => intro n acc h; omega
  | succ f ih =>
    intro n acc h
    unfold formatDigits
    by_cases hn : n < 10
    · refine ⟨digitChar n, [], by simp [hn], digitChar_isDigit n hn, by simp, ?_⟩
      intro h0
      exact ⟨rfl, digitChar_eq_zero n hn h0⟩
    · simp only [hn, if_false]
      obtain ⟨d, ds, he, hd, hds, h0⟩ := ih (n / 10) (digitChar (n % 10) :: acc) (by omega)
      refine ⟨d, ds ++ [digitChar (n % 10)], by simp [he], hd, ?_, ?_⟩
      · intro c hc
        rcases List.mem_append.1 hc with h1 | h1
        · exact hds c h1
        · rw [List.mem_singleton.1 h1]
          exact digitChar_isDigit _ (Nat.mod_lt _ (by decide))
      · intro hz
        have := (h0 hz).2
        omega

theorem formatNat_isNumeral (n : Nat) : IsNumeral (formatNat n) := by
  obtain ⟨d, ds, he, hd, hds, h0⟩ := formatDigits_shape (n + 1) n [] (by omega)
  exact ⟨d, ds, by simpa [formatNat] using he, hd, hds, fun h => (h0 h).1⟩

theorem isDigit_ne_minus (c : Char) (h : isDigit c = true) : c ≠ '-' := by
  intro hc; subst hc; exact absurd h (by decide)

theorem isDigit_ne_plus (c : Char) (h : isDigit c = true) : c ≠ '+' := by
  intro hc; subst hc; exact absurd h (by decide)

theorem ParseInt_Itoa (i : Int) (h : inIntRange i) : ParseInt (Itoa i) = some i := by
  obtain ⟨d, ds, he, hd, hds, -⟩ := formatNat_isNumeral i.natAbs
  have hp := parseDigits_formatNat i.natAbs
  unfold inIntRange minInt maxInt at h
  unfold Itoa
  by_cases hi : i < 0
  · simp only [hi, if_true]
    unfold ParseInt
    simp only [decide_True, or_true, if_true, he]
    rw [← he, hp]
    have h1 : ¬ ((2:Nat) ^ 63 < i.natAbs) := by omega
    simp [h1, abs_of_neg hi]
    omega
  · simp only [hi, if_false]
    unfold ParseInt
    rw [he]
    have hm := isDigit_ne_minus d hd
    have hpl := isDigit_ne_plus d hd
    simp only [hm, hpl, decide_False, or_self, if_false]
    rw [← he, hp]
    have h1 : ¬ ((2:Nat) ^ 63 ≤ i.natAbs) := by omega
    simp [h1, abs_of_nonneg (not_lt.1 hi)]
    omega

theorem digitChar_eq (d : Nat) (h : d < 10) : digitChar d = Nat.digitChar d := by
  interval_cases d <;> rfl

theorem formatDigits_eq_toDigitsCore (fuel : Nat) :
    ∀ (n : Nat) (acc : List Char), formatDigits fuel n acc = Nat.toDigitsCore 10 fuel n acc := by
  induction fuel with
  | zero => intro n acc; rfl
  | succ f ih =>
    intro n acc
    unfold formatDigits Nat.toDigitsCore
    by_cases hn : n < 10
    · have h0 : n / 10 = 0 := Nat.div_eq_of_lt hn
      have hm : n % 10 = n := Nat.mod_eq_of_lt hn
      simp only [hn, if_true, h0, hm, digitChar_eq n hn]
    · have h0 : ¬ n / 10 = 0 := by omega
      simp only [hn, if_false, h0, ih, digitChar_eq _ (Nat.mod_lt n (by decide : 0 < 10))]

theorem formatNat_eq_toDigits (n : Nat) : formatNat n = Nat.toDigits 10 n :=
  formatDigits_eq_toDigitsCore (n + 1) n []

/-- The text `strconv.Itoa` gives is the decimal text of the integer, as the core library
prints it: the digits of the absolute value, most significant first and without leading
zeros, after a minus sign for a negative integer. -/
theorem Itoa_eq_toString (i : Int) : Itoa i = (toString i).toList := by
  cases i with
  | ofNat m =>
    have h : ¬ (Int.ofNat m < 0) := by simp
    unfold Itoa
    rw [if_neg h, formatNat_eq_toDigits]
    rfl
  | negSucc m =>
    have h : Int.negSucc m < 0 := Int.negSucc_lt_zero m
    unfold Itoa
    rw [if_pos h, formatNat_eq_toDigits]
    rfl

theorem ParseInt_inIntRange (s : GoString) (n : Int) (h : ParseInt s = some n) :
    inIntRange n := by
  unfold ParseInt at h
  unfold inIntRange minInt maxInt
  split at h
  · exact absurd h (by simp)
  · rename_i c cs
    simp only at h
    split at h
    · exact absurd h (by simp)
    · split at h
      · exact absurd h (by simp)
      · rename_i un hun
        by_cases hneg : c = '-'
        · simp [hneg] at h
          obtain ⟨h1, h2⟩ := h
          omega
        · simp [hneg] at h
          obtain ⟨h1, h2⟩ := h
          omega

theorem stringStep_plain (c : Char) (rest : List Char) (h : Plain c) :
    stringStep (c :: rest) = some (some c, rest) := by
  obtain ⟨h1, h2, h3⟩ := h
  simp [stringStep, h1, h2, h3]

theorem stringStep_quote (rest : List Char) : stringStep ('"' :: rest) = some (none, rest) := by
  simp [stringStep]

theorem hexVal_hexDigit (k : Nat) (h : k < 16) : hexVal (hexDigit k) = some k := by
  interval_cases k <;> decide

theorem char_eq_of_toNat (c : Char) (n : Nat) (h : c.toNat = n) : c = Char.ofNat n := by
  rw [← h, Char.ofNat_toNat]

theorem stringStep_encodeRune (c : Char) (rest : List Char) :
    stringStep (encodeRune c ++ rest) = some (some c, rest) := by
  unfold encodeRune
  by_cases h1 : c = '\\' ∨ c = '"'
  · rcases h1 with h | h <;> subst h <;> simp [stringStep, simpleEscape]
  simp only [h1, if_false]
  by_cases h2 : c = '\n'
  · subst h2; simp [stringStep, simpleEscape]
  simp only [h2, if_false]
  by_cases h3 : c = '\r'
  · subst h3; simp [stringStep, simpleEscape]
  simp only [h3, if_false]
  by_cases h4 : c = '\t'
  · subst h4; simp [stringStep, simpleEscape]
  simp only [h4, if_false]
  by_cases h5 : c.toNat < 0x20 ∨ c = '<' ∨ c = '>' ∨ c = '&'
  · simp only [h5, if_true]
    have hlt : c.toNat < 128 := by
      rcases h5 with h | h | h | h
      · omega
      · subst h; decide
      · subst h; decide
      · subst h; decide
    have hx1 := hexVal_hexDigit (c.toNat / 16) (by omega)
    have hx2 := hexVal_hexDigit (c.toNat % 16) (by omega)
    have hs : isSurrogate (c.toNat / 16 * 16 + c.toNat % 16) = false := by
      unfold isSurrogate; simp; omega
    have hc : c.toNat / 16 * 16 + c.toNat % 16 = c.toNat := by omega
    simp [stringStep, hex4, hx1, hx2, show hexVal '0' = some 0 from by decide, hs]
    rw [hc, Char.ofNat_toNat]
  simp only [h5, if_false]
  by_cases h6 : c = Char.ofNat 0x2028 ∨ c = Char.ofNat 0x2029
  · rcases h6 with h | h <;> subst h
    · have e1 : hexDigit 8 = '8' := by decide
      have e2 : hex4 '2' '0' '2' '8' = some 0x2028 := by decide
      have e3 : isSurrogate 0x2028 = false := by decide
      simp [stringStep, e1, e2, e3]
    · have e1 : hexDigit 9 = '9' := by decide
      have e2 : hex4 '2' '0' '2' '9' = some 0x2029 := by decide
      have e3 : isSurrogate 0x2029 = false := by decide
      simp [stringStep, e1, e2, e3]
  simp only [h6, if_false]
  push_neg at h1 h5
  exact stringStep_plain c rest ⟨h1.2, h1.1, by omega⟩

theorem parseStringBody_mono (f : Nat) :
    ∀ (s : List Char) (r : GoString × List Char),
      parseStringBody f s = some r → parseStringBody (f + 1) s = some r := by
  induction f with
  | zero => intro s r h; simp [parseStringBody] at h
  | succ f ih =>
    intro s r h
    rw [parseStringBody] at h ⊢
    cases hs : stringStep s with
    | none => simp [hs] at h
    | some p =>
      obtain ⟨o, rest⟩ := p
      cases o with
      | none => simpa [hs] using h
      | some c =>
        simp only [hs] at h ⊢
        cases hr : parseStringBody f rest with
        | none => simp [hr] at h
        | some q => rw [ih rest q hr]; rw [hr] at h; exact h

theorem parseStringBody_mono_le (f g : Nat) (hfg : f ≤ g) (s : List Char)
    (r : GoString × List Char) (h : parseStringBody f s = some r) :
    parseStringBody g s = some r := by
  induction hfg with
  | refl => exact h
  | step _ ih => exact parseStringBody_mono _ s r ih

theorem encodeRune_length_pos (c : Char) : 1 ≤ (encodeRune c).length := by
  unfold encodeRune
  split_ifs <;> simp

theorem encodeRunes_length (s : GoString) : s.length ≤ (encodeRunes s).length := by
  induction s with
  | nil => simp [encodeRunes]
  | cons c cs ih =>
    have := encodeRune_length_pos c
    simp only [encodeRunes, List.length_append, List.length_cons]
    omega

theorem parseStringBody_encodeRunes (s : GoString) (rest : List Char) :
    parseStringBody (s.length + 1) (encodeRunes s ++ '"' :: rest) = some (s, rest) := by
  induction s with
  | nil => simp [encodeRunes, parseStringBody, stringStep_quote]
  | cons c cs ih =>
    rw [List.length_cons, parseStringBody]
    simp only [encodeRunes, List.append_assoc]
    rw [stringStep_encodeRune]
    simp only [ih, Option.map_some']

@[simp] theorem parseString_encodeRunes (s : GoString) (rest : List Char) :
    parseString (encodeRunes s ++ '"' :: rest) = some (s, rest) := by
  unfold parseString
  apply parseStringBody_mono_le (s.length + 1) _ _ _ _ (parseStringBody_encodeRunes s rest)
  have := encodeRunes_length s
  simp only [List.length_append, List.length_cons]
  omega

theorem parseStringBody_plain (s : GoString) (rest : List Char) (h : ∀ c ∈ s, Plain c) :
    parseStringBody (s.length + 1) (s ++ '"' :: rest) = some (s, rest) := by
  induction s with
  | nil => simp [parseStringBody, stringStep_quote]
  | cons c cs ih =>
    rw [List.length_cons, parseStringBody, List.cons_append,
      stringStep_plain c _ (h c (List.mem_cons_self _ _))]
    simp only [ih (fun x hx => h x (List.mem_cons_of_mem _ hx)), Option.map_some']

theorem parseString_plain (s : GoString) (rest : List Char) (h : ∀ c ∈ s, Plain c) :
    parseString (s ++ '"' :: rest) = some (s, rest) := by
  unfold parseString
  apply parseStringBody_mono_le (s.length + 1) _ _ _ _ (parseStringBody_plain s rest h)
  simp only [List.length_append, List.length_cons]
  omega

theorem spanDigits_append (ds : List Char) (c : Char) (r : List Char)
    (hds : ∀ x ∈ ds, isDigit x = true) (hc : isDigit c = false) :
    spanDigits (ds ++ c :: r) = (ds, c :: r) := by
  induction ds with
  | nil => simp [spanDigits, hc]
  | cons d ds ih =>
    have hd := hds d (List.mem_cons_self _ _)
    have := ih (fun x hx => hds x (List.mem_cons_of_mem _ hx))
    simp [spanDigits, hd, this]

theorem scanInt_numeral (s : List Char) (r : List Char) (h : IsNumeral s) :
    scanInt (s ++ ',' :: r) = some (s, ',' :: r) := by
  obtain ⟨d, ds, he, hd, hds, h0⟩ := h
  subst he
  by_cases hz : d = '0'
  · have := h0 hz
    subst this; subst hz
    simp [scanInt]
  · simp [scanInt, hz, hd, spanDigits_append ds ',' r hds (by decide)]

theorem parseNumber_numeral (s : List Char) (r : List Char) (h : IsNumeral s) :
    parseNumber (s ++ ',' :: r) = some (s, ',' :: r) := by
  have hs := scanInt_numeral s r h
  obtain ⟨d, ds, he, hd, hds, h0⟩ := h
  have hm := isDigit_ne_minus d hd
  subst he
  unfold parseNumber
  simp only [List.cons_append, hm, if_false]
  rw [← List.cons_append, hs]
  simp [scanFrac, scanExp]

theorem parseNumber_neg_numeral (s : List Char) (r : List Char) (h : IsNumeral s) :
    parseNumber ('-' :: (s ++ ',' :: r)) = some ('-' :: s, ',' :: r) := by
  have hs := scanInt_numeral s r h
  unfold parseNumber
  simp only [if_true]
  rw [hs]
  simp [scanFrac, scanExp]

theorem parseNumber_Itoa (i : Int) (r : List Char) :
    parseNumber (Itoa i ++ ',' :: r) = some (Itoa i, ',' :: r) := by
  unfold Itoa
  by_cases hi : i < 0
  · simp only [hi, if_true, List.cons_append]
    exact parseNumber_neg_numeral _ r (formatNat_isNumeral _)
  · simp only [hi, if_false]
    exact parseNumber_numeral _ r (formatNat_isNumeral _)

/-- The first character of the decimal text of an integer: a minus sign or a digit. -/
theorem Itoa_head (i : Int) : ∃ c cs, Itoa i = c :: cs ∧ (c = '-' ∨ isDigit c = true) := by
  obtain ⟨d, ds, he, hd, -, -⟩ := formatNat_isNumeral i.natAbs
  unfold Itoa
  by_cases hi : i < 0
  · exact ⟨'-', formatNat i.natAbs, by simp [hi], Or.inl rfl⟩
  · exact ⟨d, ds, by simp [hi, he], Or.inr hd⟩

theorem parseValue_mono_aux (f : Nat) :
    (∀ s r, parseValue f s = some r → parseValue (f + 1) s = some r) ∧
    (∀ s r, parseMembers f s = some r → parseMembers (f + 1) s = some r) ∧
    (∀ s r, parseElems f s = some r → parseElems (f + 1) s = some r) := by
  induction f with
  | zero =>
    refine ⟨?_, ?_, ?_⟩ <;> intro s r h <;> simp [parseValue, parseMembers, parseElems] at h
  | succ f ih =>
    obtain ⟨ihv, ihm, ihe⟩ := ih
    refine ⟨?_, ?_, ?_⟩
    · intro s r h
      rw [parseValue] at h ⊢
      split
      · rename_i hs; simp [hs] at h
      · rename_i c rest hs
        simp only [hs] at h
        split_ifs at h ⊢
        · split
          · rename_i hs1; simp [hs1] at h
          · rename_i c1 rest1 hs1
            simp only [hs1] at h
            split_ifs at h ⊢
            · exact h
            · cases hm : parseMembers f (c1 :: rest1) with
              | none => simp [hm] at h
              | some q => rw [ihm _ _ hm]; rw [hm] at h; exact h
        · split
          · rename_i hs1; simp [hs1] at h
          · rename_i c1 rest1 hs1
            simp only [hs1] at h
            split_ifs at h ⊢
            · exact h
            · cases hm : parseElems f (c1 :: rest1) with
              | none => simp [hm] at h
              | some q => rw [ihe _ _ hm]; rw [hm] at h; exact h
        all_goals exact h
    · intro s r h
      rw [parseMembers] at h ⊢
      split
      · rename_i hs; simp [hs] at h
      · rename_i c rest hs
        simp only [hs] at h
        split_ifs at h ⊢
        · cases hk : parseString rest with
          | none => simp [hk] at h
          | some kr =>
            obtain ⟨key, rest1⟩ := kr
            simp only [hk] at h ⊢
            split
            · rename_i hs1; simp [hs1] at h
            · rename_i c2 rest2 hs1
              simp only [hs1] at h
              split_ifs at h ⊢
              · cases hv : parseValue f rest2 with
                | none => simp [hv] at h
                | some vr =>
                  obtain ⟨v, rest3⟩ := vr
                  rw [ihv _ _ hv]
                  simp only [hv] at h ⊢
                  split
                  · rename_i hs2; simp [hs2] at h
                  · rename_i c3 rest4 hs2
                    simp only [hs2] at h
                    split_ifs at h ⊢
                    · cases hm : parseMembers f rest4 with
                      | none => simp [hm] at h
                      | some q => rw [ihm _ _ hm]; rw [hm] at h; exact h
                    · exact h
    · intro s r h
      rw [parseElems] at h ⊢
      cases hv : parseValue f s with
      | none => simp [hv] at h
      | some vr =>
        obtain ⟨v, rest⟩ := vr
        rw [ihv _ _ hv]
        simp only [hv] at h ⊢
        split
        · rename_i hs2; simp [hs2] at h
        · rename_i c3 rest4 hs2
          simp only [hs2] at h
          split_ifs at h ⊢
          · cases hm : parseElems f rest4 with
            | none => simp [hm] at h
            | some q => rw [ihe _ _ hm]; rw [hm] at h; exact h
          · exact h

theorem parseValue_mono_le (f g : Nat) (hfg : f ≤ g) (s : List Char) (r : JSON × List Char)
    (h : parseValue f s = some r) : parseValue g s = some r := by
  induction hfg with
  | refl => exact h
  | step _ ih => exact (parseValue_mono_aux _).1 s r ih

theorem strText_encodeRunes (s : GoString) : StrText (encodeRunes s) s :=
  fun rest => parseString_encodeRunes s rest

theorem strText_plain (s : GoString) (h : ∀ c ∈ s, Plain c) : StrText s s :=
  fun rest => parseString_plain s rest h

theorem skipWS_quote (r : List Char) : skipWS ('"' :: r) = '"' :: r := by
  simp [skipWS, isSpace]

theorem parseValue_strText (f : Nat) (hf : 0 < f) (body : List Char) (s : GoString)
    (rest : List Char) (h : StrText body s) :
    parseValue f ('"' :: (body ++ '"' :: rest)) = some (JSON.str s, rest) := by
  obtain ⟨g, rfl⟩ : ∃ g, f = g + 1 := ⟨f - 1, by omega⟩
  rw [parseValue, skipWS_quote]
  simp [h rest]

theorem skipWS_colon (r : List Char) : skipWS (':' :: r) = ':' :: r := by
  simp [skipWS, isSpace]

theorem skipWS_comma (r : List Char) : skipWS (',' :: r) = ',' :: r := by
  simp [skipWS, isSpace]

theorem skipWS_rbrace (r : List Char) : skipWS ('}' :: r) = '}' :: r := by
  simp [skipWS, isSpace]

theorem skipWS_space (r : List Char) : skipWS (' ' :: r) = skipWS r := by
  simp [skipWS, isSpace]

/-- A member followed by a comma: the rest of the members follows. -/
theorem parseMembers_comma (g : Nat) (body : List Char) (k : GoString) (r2 : List Char)
    (v : JSON) (r4 : List Char) (hk : parseString body = some (k, ':' :: r2))
    (hv : parseValue g r2 = some (v, ',' :: r4)) :
    parseMembers (g + 1) ('"' :: body) =
      (parseMembers g r4).map (fun p => ((k, v) :: p.1, p.2)) := by
  rw [parseMembers, skipWS_quote]
  simp only [if_true, hk, skipWS_colon, hv, skipWS_comma]

/-- A member followed by the closing brace. -/
theorem parseMembers_last (g : Nat) (body : List Char) (k : GoString) (r2 : List Char)
    (v : JSON) (r4 : List Char) (hk : parseString body = some (k, ':' :: r2))
    (hv : parseValue g r2 = some (v, '}' :: r4)) :
    parseMembers (g + 1) ('"' :: body) = some ([(k, v)], r4) := by
  rw [parseMembers, skipWS_quote]
  simp only [if_true, hk, skipWS_colon, hv, skipWS_rbrace]
  rfl

theorem parseMembers_encodeMembers (l : List (GoString × List Char × GoString)) :
    l ≠ [] → (∀ m ∈ l, StrText m.2.1 m.2.2) → ∀ (f : Nat) (rest : List Char),
      l.length + 1 ≤ f →
      parseMembers f
        (encodeMembers (l.map (fun m => (m.1, '"' :: (m.2.1 ++ ['"'])))) ++ '}' :: rest) =
      some (l.map (fun m => (m.1, JSON.str m.2.2)), rest) := by
  induction l with
  | nil => intro h; exact absurd rfl h
  | cons m tl ih =>
    intro _ hall f rest hf
    obtain ⟨k, b, s⟩ := m
    have hm : StrText b s := hall (k, b, s) (List.mem_cons_self _ _)
    obtain ⟨g, rfl⟩ : ∃ g, f = g + 1 := ⟨f - 1, by omega⟩
    simp only [List.length_cons] at hf
    cases tl with
    | nil =>
      have e : encodeMembers (List.map (fun m => (m.1, '"' :: (m.2.1 ++ ['"']))) [(k, b, s)])
          ++ '}' :: rest = '"' :: (encodeRunes k ++ '"' :: ':' :: '"' :: (b ++ '"' :: '}' :: rest)) := by
        simp [encodeMembers, encodeString]
      rw [e, parseMembers_last g _ k _ (JSON.str s) _ (parseString_encodeRunes k _)
        (parseValue_strText g (by omega) b s _ hm)]
      rfl
    | cons m1 tl1 =>
      have e : encodeMembers (List.map (fun m => (m.1, '"' :: (m.2.1 ++ ['"'])))
            ((k, b, s) :: m1 :: tl1)) ++ '}' :: rest =
          '"' :: (encodeRunes k ++ '"' :: ':' :: '"' :: (b ++ '"' :: ',' ::
            (encodeMembers (List.map (fun m => (m.1, '"' :: (m.2.1 ++ ['"']))) (m1 :: tl1))
              ++ '}' :: rest))) := by
        simp [encodeMembers, encodeString]
      have ih' := ih (by simp) (fun x hx => hall x (List.mem_cons_of_mem _ hx)) g rest
        (by simp only [List.length_cons] at hf ⊢; omega)
      rw [e, parseMembers_comma g _ k _ (JSON.str s) _ (parseString_encodeRunes k _)
        (parseValue_strText g (by omega) b s _ hm), ih']
      rfl

theorem parseElems_encodeElems (xs : List GoString) :
    xs ≠ [] → ∀ (f : Nat) (rest : List Char), xs.length + 1 ≤ f →
      parseElems f (encodeElems xs ++ ']' :: rest) = some (xs.map JSON.str, rest) := by
  induction xs with
  | nil => intro h; exact absurd rfl h
  | cons x tl ih =>
    intro _ f rest hf
    obtain ⟨g, rfl⟩ : ∃ g, f = g + 1 := ⟨f - 1, by omega⟩
    simp only [List.length_cons] at hf
    cases tl with
    | nil =>
      have e : encodeElems [x] ++ ']' :: rest = '"' :: (encodeRunes x ++ '"' :: ']' :: rest) := by
        simp [encodeElems, encodeString]
      rw [e, parseElems, parseValue_strText g (by omega) _ x _ (strText_encodeRunes x)]
      simp [skipWS, isSpace]
    | cons y tl1 =>
      have e : encodeElems (x :: y :: tl1) ++ ']' :: rest =
          '"' :: (encodeRunes x ++ '"' :: ',' :: (encodeElems (y :: tl1) ++ ']' :: rest)) := by
        simp [encodeElems, encodeString]
      have ih' := ih (by simp) g rest (by simp only [List.length_cons] at hf ⊢; omega)
      rw [e, parseElems, parseValue_strText g (by omega) _ x _ (strText_encodeRunes x)]
      simp [skipWS, isSpace, ih']

theorem encodeElems_length (xs : List GoString) : xs.length ≤ (encodeElems xs).length + 1 := by
  induction xs with
  | nil => simp
  | cons x tl ih =>
    cases tl with
    | nil => simp
    | cons y tl1 =>
      simp only [encodeElems, List.length_append, List.length_cons] at ih ⊢
      have : 1 ≤ (encodeString x).length := by simp [encodeString]
      omega

theorem parseJSON_MarshalStrings (xs : List GoString) :
    parseJSON (MarshalStrings (some xs)) = some (JSON.arr (xs.map JSON.str)) := by
  unfold parseJSON MarshalStrings
  simp only [List.length_cons, List.length_append]
  cases xs with
  | nil => simp [encodeElems, parseValue, skipWS, isSpace]
  | cons x tl =>
    have hlen := encodeElems_length (x :: tl)
    rw [parseValue]
    simp only [skipWS, isSpace]
    have h := parseElems_encodeElems (x :: tl) (by simp) ((encodeElems (x :: tl)).length + [']'].length + 1) [] (by simp at hlen ⊢; omega)
    simp only [List.length_singleton] at h
    rw [show encodeElems (x :: tl) ++ [']'] = encodeElems (x :: tl) ++ ']' :: [] from rfl]
    cases hx : encodeElems (x :: tl) with
    | nil => cases tl <;> simp [encodeElems, encodeString] at hx
    | cons c cs =>
      rw [hx] at h
      simp only [List.cons_append, List.length_cons] at h ⊢
      have hc : c = '"' := by
        cases tl <;> simp [encodeElems, encodeString] at hx <;> exact hx.1.symm
      subst hc
      simp [h, skipWS, isSpace]

theorem UnmarshalStrings_MarshalStrings (xs : List GoString) :
    UnmarshalStrings (MarshalStrings (some xs)) = some xs := by
  unfold UnmarshalStrings
  rw [parseJSON_MarshalStrings]
  simp [List.map_map, Function.comp_def, elemString]

theorem UnmarshalStrings_null : UnmarshalStrings (MarshalStrings none) = none := by
  decide

theorem isDigit_plain (c : Char) (h : isDigit c = true) : Plain c := by
  unfold isDigit at h
  simp only [decide_eq_true_eq] at h
  have h1 : '0'.toNat = 48 := by decide
  have h2 : '9'.toNat = 57 := by decide
  rw [h1, h2] at h
  refine ⟨?_, ?_, ?_⟩
  · intro hc; subst hc; revert h; decide
  · intro hc; subst hc; revert h; decide
  · omega

theorem Itoa_plain (i : Int) : ∀ c ∈ Itoa i, Plain c := by
  obtain ⟨d, ds, he, hd, hds, -⟩ := formatNat_isNumeral i.natAbs
  have hall : ∀ c ∈ formatNat i.natAbs, Plain c := by
    intro c hc
    rw [he] at hc
    rcases List.mem_cons.1 hc with h | h
    · subst h; exact isDigit_plain _ hd
    · exact isDigit_plain _ (hds c h)
  intro c hc
  unfold Itoa at hc
  by_cases hi : i < 0
  · simp only [hi, if_true] at hc
    rcases List.mem_cons.1 hc with h | h
    · subst h; decide
    · exact hall c h
  · simp only [hi, if_false] at hc
    exact hall c hc

theorem storeQuotedInt_Itoa (t : Trade) (f : TradeField) (n : Int) (h : inIntRange n) :
    storeQuotedInt t f (Itoa n) = (t.setInt f n, false) := by
  obtain ⟨c, cs, he, hc⟩ := Itoa_head n
  have hp := ParseInt_Itoa n h
  have hpl : Plain c := Itoa_plain n c (by rw [he]; exact List.mem_cons_self _ _)
  have hcond : c = '-' ∨ isDigit c = true := hc
  have h1 : ¬ (c = 'n' ∨ c = 't' ∨ c = 'f') := by
    rintro (h | h | h) <;> subst h <;> revert hcond <;> decide
  rw [he] at hp
  unfold storeQuotedInt
  rw [he]
  simp only [h1, if_false, hpl.1, hcond, if_true, hp]

theorem encodeField_eq (t : Trade) (f : TradeField) :
    encodeField t f = '"' :: (fieldBody t f ++ ['"']) := by
  unfold encodeField fieldBody
  split <;> simp [encodeString]

theorem strText_field (t : Trade) (f : TradeField) : StrText (fieldBody t f) (fieldText t f) := by
  unfold fieldBody fieldText
  split
  · exact strText_plain _ (Itoa_plain _)
  · exact strText_encodeRunes _

theorem encodeMembers_length (l : List (GoString × List Char)) :
    l.length ≤ (encodeMembers l).length := by
  induction l with
  | nil => simp
  | cons m tl ih =>
    cases tl with
    | nil => simp [encodeMembers, encodeString]
    | cons m1 tl1 =>
      simp only [encodeMembers, List.length_append, List.length_cons] at ih ⊢
      omega

theorem parseValue_object (F : Nat) (r : List Char) :
    parseValue (F + 1) ('{' :: '"' :: r) =
      (parseMembers F ('"' :: r)).map (fun p => (JSON.obj p.1, p.2)) := by
  rw [parseValue]
  simp [skipWS, isSpace]

theorem parseJSON_MarshalTrade (t : Trade) :
    parseJSON (MarshalTrade t) =
      some (JSON.obj (tradeFields.map (fun f => (f.jsonName, JSON.str (fieldText t f))))) := by
  have hmap : tradeFields.map (fun f => (f.jsonName, encodeField t f)) =
      (tradeFields.map (fun f => (f.jsonName, fieldBody t f, fieldText t f))).map
        (fun m => (m.1, '"' :: (m.2.1 ++ ['"']))) := by
    simp only [List.map_map]
    apply List.map_congr_left
    intro f _
    simp [encodeField_eq]
  have hlen := encodeMembers_length (tradeFields.map (fun f => (f.jsonName, encodeField t f)))
  have hl11 : (tradeFields.map (fun f => (f.jsonName, encodeField t f))).length = 11 := by
    simp [tradeFields]
  have h := fun F hF => parseMembers_encodeMembers
    (tradeFields.map (fun f => (f.jsonName, fieldBody t f, fieldText t f)))
    (by simp [tradeFields])
    (by
      intro m hm
      obtain ⟨f, -, rfl⟩ := List.mem_map.1 hm
      exact strText_field t f)
    F [] hF
  rw [← hmap] at h
  simp only [List.length_map] at h hl11 hlen
  unfold parseJSON MarshalTrade
  simp only [List.length_cons, List.length_append, List.length_nil]
  cases hx : encodeMembers (tradeFields.map (fun f => (f.jsonName, encodeField t f))) with
  | nil => rw [hx] at hlen; rw [hl11] at hlen; simp at hlen
  | cons c cs =>
    have hc : c = '"' := by
      simp [tradeFields, encodeMembers, encodeString] at hx
      exact hx.1.symm
    subst hc
    rw [hx] at h hlen
    simp only [List.cons_append, List.length_cons] at h hlen ⊢
    rw [parseValue_object, h _ (by omega)]
    simp [skipWS, List.map_map, Function.comp_def]

theorem findField_jsonName (f : TradeField) : findField f.jsonName = some f := by
  cases f <;> decide

theorem UnmarshalTrade_MarshalTrade (t t0 : Trade) (h : t.WF) :
    UnmarshalTrade (MarshalTrade t) t0 = t := by
  obtain ⟨hq, hs, hn⟩ := h
  unfold UnmarshalTrade
  rw [parseJSON_MarshalTrade]
  simp only [tradeFields, List.map, storeMembers, findField_jsonName, storeField, fieldText,
    TradeField.quotedInt, if_true, if_false, Trade.getInt, Trade.getString,
    Bool.false_eq_true]
  rw [storeQuotedInt_Itoa _ _ _ hq]
  simp only [Bool.false_eq_true, if_false]
  rw [storeQuotedInt_Itoa _ _ _ hs]
  simp only [Bool.false_eq_true, if_false]
  rw [storeQuotedInt_Itoa _ _ _ hn]
  simp only [Bool.false_eq_true, if_false]
  cases t
  simp [Trade.setString, Trade.setInt]

theorem jsonName_plain (f : TradeField) : PlainStr f.jsonName := by
  cases f <;> decide

theorem parseMembers_space (g : Nat) (r : List Char) :
    parseMembers g (' ' :: r) = parseMembers g r := by
  cases g with
  | zero => simp [parseMembers]
  | succ g => rw [parseMembers, parseMembers, skipWS_space]

theorem parseValue_space (g : Nat) (r : List Char) :
    parseValue g (' ' :: r) = parseValue g r := by
  cases g with
  | zero => simp [parseValue]
  | succ g => rw [parseValue, parseValue, skipWS_space]

/-- A member of the hand-assembled text whose value is a string, followed by a comma. -/
theorem parseMembers_handStr (g : Nat) (hg : 0 < g) (key val : GoString) (r : List Char)
    (hk : PlainStr key) (hv : PlainStr val) :
    parseMembers (g + 1)
      ('"' :: (key ++ '"' :: ':' :: ' ' :: '"' :: (val ++ '"' :: ',' :: ' ' :: r))) =
      (parseMembers g r).map (fun p => ((key, JSON.str val) :: p.1, p.2)) := by
  rw [parseMembers_comma g _ key _ (JSON.str val) (' ' :: r) (parseString_plain key _ hk)
    (by rw [parseValue_space]; exact parseValue_strText g hg val val _ (strText_plain val hv)),
    parseMembers_space]

/-- The last member of the hand-assembled text. -/
theorem parseMembers_handLast (g : Nat) (hg : 0 < g) (key val : GoString) (r : List Char)
    (hk : PlainStr key) (hv : PlainStr val) :
    parseMembers (g + 1)
      ('"' :: (key ++ '"' :: ':' :: ' ' :: '"' :: (val ++ '"' :: '}' :: r))) =
      some ([(key, JSON.str val)], r) := by
  rw [parseMembers_last g _ key _ (JSON.str val) r (parseString_plain key _ hk)
    (by rw [parseValue_space]; exact parseValue_strText g hg val val _ (strText_plain val hv))]

theorem parseValue_Itoa (g : Nat) (hg : 0 < g) (i : Int) (r : List Char) :
    parseValue g (Itoa i ++ ',' :: r) = some (JSON.num (Itoa i), ',' :: r) := by
  obtain ⟨f, rfl⟩ : ∃ f, g = f + 1 := ⟨g - 1, by omega⟩
  have hn := parseNumber_Itoa i r
  obtain ⟨c, cs, he, hc⟩ := Itoa_head i
  have hpl : Plain c := Itoa_plain i c (by rw [he]; exact List.mem_cons_self _ _)
  rw [he] at hn ⊢
  have hsp : isSpace c = false := by
    rcases hc with h | h
    · subst h; decide
    · cases hs : isSpace c with
      | false => rfl
      | true =>
        exfalso
        unfold isSpace at hs
        simp only [decide_eq_true_eq] at hs
        rcases hs with h1 | h1 | h1 | h1 <;> subst h1 <;> revert h <;> decide
  have h1 : c ≠ '{' := by rintro rfl; rcases hc with h | h <;> revert h <;> decide
  have h2 : c ≠ '[' := by rintro rfl; rcases hc with h | h <;> revert h <;> decide
  rw [parseValue]
  simp only [List.cons_append, skipWS, hsp, Bool.false_eq_true, if_false, h1, h2, hpl.1, hc,
    if_true]
  simp only [List.cons_append] at hn
  simp only [List.append_eq]
  rw [hn]
  rfl

/-- The member of the hand-assembled text whose value is a bare number. -/
theorem parseMembers_handNum (g : Nat) (hg : 0 < g) (key : GoString) (i : Int) (r : List Char)
    (hk : PlainStr key) :
    parseMembers (g + 1) ('"' :: (key ++ '"' :: ':' :: ' ' :: (Itoa i ++ ',' :: ' ' :: r))) =
      (parseMembers g r).map (fun p => ((key, JSON.num (Itoa i)) :: p.1, p.2)) := by
  rw [parseMembers_comma g _ key _ (JSON.num (Itoa i)) (' ' :: r) (parseString_plain key _ hk)
    (by rw [parseValue_space]; exact parseValue_Itoa g hg i _), parseMembers_space]

theorem tradeJSON_eq (td vd op : GoString) (q : Int) (sec pr cp us ts : GoString)
    (st nr : Int) :
    tradeJSON td vd op q sec pr cp us ts st nr =
      '{' :: '"' :: (TradeField.TradeDate.jsonName ++ '"' :: ':' :: ' ' :: '"' :: (td ++
      '"' :: ',' :: ' ' :: '"' :: (TradeField.ValueDate.jsonName ++ '"' :: ':' :: ' ' :: '"' :: (vd ++
      '"' :: ',' :: ' ' :: '"' :: (TradeField.Operation.jsonName ++ '"' :: ':' :: ' ' :: '"' :: (op ++
      '"' :: ',' :: ' ' :: '"' :: (TradeField.Quantity.jsonName ++ '"' :: ':' :: ' ' :: (Itoa q ++
      ',' :: ' ' :: '"' :: (TradeField.Security.jsonName ++ '"' :: ':' :: ' ' :: '"' :: (sec ++
      '"' :: ',' :: ' ' :: '"' :: (TradeField.Price.jsonName ++ '"' :: ':' :: ' ' :: '"' :: (pr ++
      '"' :: ',' :: ' ' :: '"' :: (TradeField.Counterparty.jsonName ++ '"' :: ':' :: ' ' :: '"' :: (cp ++
      '"' :: ',' :: ' ' :: '"' :: (TradeField.User.jsonName ++ '"' :: ':' :: ' ' :: '"' :: (us ++
      '"' :: ',' :: ' ' :: '"' :: (TradeField.Timestamp.jsonName ++ '"' :: ':' :: ' ' :: '"' :: (ts ++
      '"' :: ',' :: ' ' :: '"' :: (TradeField.Settled.jsonName ++ '"' :: ':' :: ' ' :: '"' :: (Itoa st ++
      '"' :: ',' :: ' ' :: '"' :: (TradeField.NeedsRevision.jsonName ++ '"' :: ':' :: ' ' :: '"' ::
      (Itoa nr ++ '"' :: '}' :: [])))))))))))))))))))))) := by
  unfold tradeJSON
  simp only [List.append_assoc]
  rfl

theorem parseJSON_tradeJSON (td vd op : GoString) (q : Int) (sec pr cp us ts : GoString)
    (st nr : Int) (h1 : PlainStr td) (h2 : PlainStr vd) (h3 : PlainStr op) (h4 : PlainStr sec)
    (h5 : PlainStr pr) (h6 : PlainStr cp) (h7 : PlainStr us) (h8 : PlainStr ts) :
    parseJSON (tradeJSON td vd op q sec pr cp us ts st nr) =
      some (JSON.obj (tradeJSONMembers td vd op q sec pr cp us ts st nr)) := by
  have key : ∀ F, parseValue (F + 13) (tradeJSON td vd op q sec pr cp us ts st nr) =
      some (JSON.obj (tradeJSONMembers td vd op q sec pr cp us ts st nr), []) := by
    intro F
    rw [tradeJSON_eq, parseValue_object,
      parseMembers_handStr _ (by omega) _ _ _ (jsonName_plain _) h1,
      parseMembers_handStr _ (by omega) _ _ _ (jsonName_plain _) h2,
      parseMembers_handStr _ (by omega) _ _ _ (jsonName_plain _) h3,
      parseMembers_handNum _ (by omega) _ _ _ (jsonName_plain _),
      parseMembers_handStr _ (by omega) _ _ _ (jsonName_plain _) h4,
      parseMembers_handStr _ (by omega) _ _ _ (jsonName_plain _) h5,
      parseMembers_handStr _ (by omega) _ _ _ (jsonName_plain _) h6,
      parseMembers_handStr _ (by omega) _ _ _ (jsonName_plain _) h7,
      parseMembers_handStr _ (by omega) _ _ _ (jsonName_plain _) h8,
      parseMembers_handStr _ (by omega) _ _ _ (jsonName_plain _) (Itoa_plain st),
      parseMembers_handLast _ (by omega) _ _ _ (jsonName_plain _) (Itoa_plain nr)]
    rfl
  have hlen : 13 ≤ (tradeJSON td vd op q sec pr cp us ts st nr).length + 1 := by
    rw [tradeJSON_eq]
    simp only [List.length_cons, List.length_append]
    omega
  unfold parseJSON
  rw [parseValue_mono_le 13 _ hlen _ _ (key 0)]
  simp [skipWS]

theorem storeMembers_tradeJSONMembers (t0 : Trade) (td vd op : GoString) (q : Int)
    (sec pr cp us ts : GoString) (st nr : Int) (hst : inIntRange st) (hnr : inIntRange nr) :
    storeMembers (tradeJSONMembers td vd op q sec pr cp us ts st nr) t0 =
      { TradeDate := td, ValueDate := vd, Operation := op, Quantity := t0.Quantity,
        Security := sec, Price := pr, Counterparty := cp, User := us, Timestamp := ts,
        Settled := st, NeedsRevision := nr } := by
  simp only [tradeJSONMembers, storeMembers, findField_jsonName, storeField,
    TradeField.quotedInt, if_true, if_false, Bool.false_eq_true]
  rw [storeQuotedInt_Itoa _ _ _ hst]
  simp only [Bool.false_eq_true, if_false]
  rw [storeQuotedInt_Itoa _ _ _ hnr]
  simp [Trade.setString, Trade.setInt]

theorem UnmarshalTrade_tradeJSON (td vd op : GoString) (q : Int) (sec pr cp us ts : GoString)
    (st nr : Int) (h1 : PlainStr td) (h2 : PlainStr vd) (h3 : PlainStr op) (h4 : PlainStr sec)
    (h5 : PlainStr pr) (h6 : PlainStr cp) (h7 : PlainStr us) (h8 : PlainStr ts)
    (hst : inIntRange st) (hnr : inIntRange nr) :
    UnmarshalTrade (tradeJSON td vd op q sec pr cp us ts st nr) zeroTrade =
      { TradeDate := td, ValueDate := vd, Operation := op, Quantity := 0,
        Security := sec, Price := pr, Counterparty := cp, User := us, Timestamp := ts,
        Settled := st, NeedsRevision := nr } := by
  unfold UnmarshalTrade
  rw [parseJSON_tradeJSON td vd op q sec pr cp us ts st nr h1 h2 h3 h4 h5 h6 h7 h8]
  exact storeMembers_tradeJSONMembers zeroTrade td vd op q sec pr cp us ts st nr hst hnr

theorem setString_WF (t : Trade) (f : TradeField) (s : GoString) (h : t.WF) :
    (t.setString f s).WF := by
  cases f <;> exact h

theorem setInt_WF (t : Trade) (f : TradeField) (n : Int) (h : t.WF) (hn : inIntRange n) :
    (t.setInt f n).WF := by
  obtain ⟨h1, h2, h3⟩ := h
  cases f <;> first | exact ⟨h1, h2, h3⟩ | exact ⟨hn, h2, h3⟩ | exact ⟨h1, hn, h3⟩ | exact ⟨h1, h2, hn⟩

theorem storeQuotedInt_WF (t : Trade) (f : TradeField) (q : GoString) (h : t.WF) :
    (storeQuotedInt t f q).1.WF := by
  unfold storeQuotedInt
  split
  · exact h
  · split_ifs
    · exact h
    · split <;> exact h
    · split
      · rename_i n hn
        exact setInt_WF t f n h (ParseInt_inIntRange _ n hn)
      · exact h
    · exact h

theorem storeField_WF (t : Trade) (f : TradeField) (v : JSON) (h : t.WF) :
    (storeField t f v).1.WF := by
  unfold storeField
  split_ifs
  · split
    · exact storeQuotedInt_WF t f _ h
    · exact h
  · split
    · exact setString_WF t f _ h
    · exact h

theorem storeMembers_WF (ms : List (GoString × JSON)) : ∀ t : Trade, t.WF → (storeMembers ms t).WF := by
  induction ms with
  | nil => intro t h; exact h
  | cons m tl ih =>
    intro t h
    obtain ⟨k, v⟩ := m
    unfold storeMembers
    split
    · exact ih t h
    · rename_i f hf
      split_ifs
      · exact storeField_WF t f v h
      · exact ih _ (storeField_WF t f v h)

theorem UnmarshalTrade_WF (data : List Char) (t : Trade) (h : t.WF) :
    (UnmarshalTrade data t).WF := by
  unfold UnmarshalTrade
  split
  · exact storeMembers_WF _ t h
  · exact h

theorem zeroTrade_WF : zeroTrade.WF := by
  unfold Trade.WF zeroTrade
  decide

/-- A text that starts with an opening brace does not parse to an array. -/
theorem parseValue_lbrace (f : Nat) (r : List Char) (v : JSON) (rest : List Char)
    (h : parseValue f ('{' :: r) = some (v, rest)) : ∃ ms, v = JSON.obj ms := by
  cases f with
  | zero => simp [parseValue] at h
  | succ f =>
    rw [parseValue] at h
    have hs : skipWS ('{' :: r) = '{' :: r := by simp [skipWS, isSpace]
    simp only [hs, if_true] at h
    split at h
    · exact absurd h (by simp)
    · split_ifs at h
      · simp only [Option.some.injEq, Prod.mk.injEq] at h
        exact ⟨[], h.1.symm⟩
      · cases hm : parseMembers f _ with
        | none => rw [hm] at h; exact absurd h (by simp)
        | some p =>
          rw [hm] at h
          simp only [Option.map_some', Option.some.injEq, Prod.mk.injEq] at h
          exact ⟨p.1, h.1.symm⟩

theorem UnmarshalStrings_lbrace (r : List Char) : UnmarshalStrings ('{' :: r) = none := by
  unfold UnmarshalStrings parseJSON
  cases hp : parseValue (('{' :: r).length + 1) ('{' :: r) with
  | none => rfl
  | some p =>
    obtain ⟨v, rest⟩ := p
    obtain ⟨ms, rfl⟩ := parseValue_lbrace _ r v rest hp
    simp only
    split_ifs <;> rfl

theorem UnmarshalStrings_tradeJSON (td vd op : GoString) (q : Int) (sec pr cp us ts : GoString)
    (st nr : Int) : UnmarshalStrings (tradeJSON td vd op q sec pr cp us ts st nr) = none := by
  rw [tradeJSON_eq]
  exact UnmarshalStrings_lbrace _

theorem skipWS_length_le (s : List Char) : (skipWS s).length ≤ s.length := by
  induction s with
  | nil => simp [skipWS]
  | cons c cs ih =>
    unfold skipWS
    split_ifs
    · simp only [List.length_cons]; omega
    · exact le_refl _

theorem lowSurrogate_length (hi : Nat) (s : List Char) (r : Char) (rest : List Char)
    (h : lowSurrogate hi s = some (r, rest)) : rest.length < s.length := by
  unfold lowSurrogate at h
  split at h
  · split at h
    · rename_i lo _
      cases hd : decodeSurrogates hi lo with
      | none => rw [hd] at h; exact absurd h (by simp)
      | some x =>
        rw [hd] at h
        simp only [Option.map_some', Option.some.injEq, Prod.mk.injEq] at h
        rw [← h.2]
        simp only [List.length_cons]
        omega
    · exact absurd h (by simp)
  · exact absurd h (by simp)

theorem stringStep_length (s : List Char) (o : Option Char) (rest : List Char)
    (h : stringStep s = some (o, rest)) : rest.length < s.length := by
  unfold stringStep at h
  split at h
  · exact absurd h (by simp)
  · rename_i c tl
    split_ifs at h with h1 h2 h3
    · simp only [Option.some.injEq, Prod.mk.injEq] at h
      rw [← h.2]; simp
    · split at h
      · exact absurd h (by simp)
      · rename_i e rest1
        split_ifs at h with h4
        · split at h
          · rename_i a b c1 d rest2
            split at h
            · exact absurd h (by simp)
            · rename_i n _
              split_ifs at h with h5
              · split at h
                · rename_i r rest3 hl
                  have := lowSurrogate_length n rest2 r rest3 hl
                  simp only [Option.some.injEq, Prod.mk.injEq] at h
                  rw [← h.2]
                  simp only [List.length_cons]
                  omega
                · simp only [Option.some.injEq, Prod.mk.injEq] at h
                  rw [← h.2]
                  simp only [List.length_cons]
                  omega
              · simp only [Option.some.injEq, Prod.mk.injEq] at h
                rw [← h.2]
                simp only [List.length_cons]
                omega
          · exact absurd h (by simp)
        · cases hs : simpleEscape e with
          | none => rw [hs] at h; exact absurd h (by simp)
          | some x =>
            rw [hs] at h
            simp only [Option.map_some', Option.some.injEq, Prod.mk.injEq] at h
            rw [← h.2]
            simp only [List.length_cons]
            omega
    · simp only [Option.some.injEq, Prod.mk.injEq] at h
      rw [← h.2]; simp

/-- A successful scan of a string literal consumes input, and succeeds with any fuel that
covers the characters consumed. -/
theorem parseStringBody_consumes (g : Nat) :
    ∀ (s : List Char) (k : GoString) (rest : List Char),
      parseStringBody g s = some (k, rest) →
        rest.length < s.length ∧
        ∀ f, s.length - rest.length ≤ f → parseStringBody f s = some (k, rest) := by
  induction g with
  | zero => intro s k rest h; simp [parseStringBody] at h
  | succ g ih =>
    intro s k rest h
    rw [parseStringBody] at h
    cases hs : stringStep s with
    | none => simp [hs] at h
    | some p =>
      obtain ⟨o, r1⟩ := p
      have hlen := stringStep_length s o r1 hs
      cases o with
      | none =>
        simp only [hs, Option.some.injEq, Prod.mk.injEq] at h
        obtain ⟨hk, hr⟩ := h
        subst hk; subst hr
        refine ⟨hlen, ?_⟩
        intro f hf
        obtain ⟨f', rfl⟩ : ∃ f', f = f' + 1 := ⟨f - 1, by omega⟩
        rw [parseStringBody]
        simp only [hs]
      | some c =>
        simp only [hs] at h
        cases hr : parseStringBody g r1 with
        | none => simp [hr] at h
        | some q =>
          obtain ⟨k1, rest1⟩ := q
          rw [hr] at h
          simp only [Option.map_some', Option.some.injEq, Prod.mk.injEq] at h
          obtain ⟨hk, hrest⟩ := h
          subst hk; subst hrest
          obtain ⟨ih1, ih2⟩ := ih r1 k1 rest1 hr
          refine ⟨by omega, ?_⟩
          intro f hf
          obtain ⟨f', rfl⟩ : ∃ f', f = f' + 1 := ⟨f - 1, by omega⟩
          rw [parseStringBody]
          simp only [hs]
          rw [ih2 f' (by omega)]
          rfl

/-- The fuel `parseString` gives the scan is enough: a literal that scans with some fuel scans
with this one, to the same result. -/
theorem parseString_fuel_adequate (g : Nat) (s : List Char) (k : GoString) (rest : List Char)
    (h : parseStringBody g s = some (k, rest)) : parseString s = some (k, rest) := by
  unfold parseString
  exact (parseStringBody_consumes g s k rest h).2 _ (by omega)

theorem parseString_length (s : List Char) (k : GoString) (rest : List Char)
    (h : parseString s = some (k, rest)) : rest.length < s.length :=
  (parseStringBody_consumes _ s k rest h).1

theorem spanDigits_length (s : List Char) : (spanDigits s).2.length ≤ s.length := by
  induction s with
  | nil => simp [spanDigits]
  | cons c cs ih =>
    unfold spanDigits
    split_ifs
    · simp only [List.length_cons]; omega
    · exact le_refl _

theorem scanInt_length (s : List Char) (ip rest : List Char) (h : scanInt s = some (ip, rest)) :
    rest.length < s.length := by
  unfold scanInt at h
  split at h
  · exact absurd h (by simp)
  · rename_i c cs
    split_ifs at h
    · simp only [Option.some.injEq, Prod.mk.injEq] at h
      rw [← h.2]; simp
    · simp only [Option.some.injEq, Prod.mk.injEq] at h
      rw [← h.2]
      have := spanDigits_length cs
      simp only [List.length_cons]; omega

theorem scanFrac_length (s : List Char) (fp rest : List Char) (h : scanFrac s = some (fp, rest)) :
    rest.length ≤ s.length := by
  unfold scanFrac at h
  split at h
  · rename_i c cs
    split_ifs at h
    · have hl := spanDigits_length cs
      split at h
      · exact absurd h (by simp)
      · rename_i ds r _ hsp
        simp only [Option.some.injEq, Prod.mk.injEq] at h
        rw [← h.2]
        rw [hsp] at hl
        simp only [List.length_cons] at hl ⊢; omega
    · simp only [Option.some.injEq, Prod.mk.injEq] at h
      rw [← h.2]
  · simp only [Option.some.injEq, Prod.mk.injEq] at h
    rw [← h.2]

theorem scanExp_length (s : List Char) (ep rest : List Char) (h : scanExp s = some (ep, rest)) :
    rest.length ≤ s.length := by
  unfold scanExp at h
  split at h
  · rename_i c cs
    split_ifs at h
    · split at h
      · rename_i sg cs1
        split_ifs at h
        · have hl := spanDigits_length cs1
          split at h
          · exact absurd h (by simp)
          · rename_i ds r _ hsp
            simp only [Option.some.injEq, Prod.mk.injEq] at h
            rw [← h.2]
            rw [hsp] at hl
            simp only [List.length_cons] at hl ⊢; omega
        · have hl := spanDigits_length (sg :: cs1)
          split at h
          · exact absurd h (by simp)
          · rename_i ds r _ hsp
            simp only [Option.some.injEq, Prod.mk.injEq] at h
            rw [← h.2]
            rw [hsp] at hl
            simp only [List.length_cons] at hl ⊢; omega
      · exact absurd h (by simp)
    · simp only [Option.some.injEq, Prod.mk.injEq] at h
      rw [← h.2]
  · simp only [Option.some.injEq, Prod.mk.injEq] at h
    rw [← h.2]

theorem parseNumber_tail_length (sign s1 lit rest : List Char)
    (h : (match scanInt s1 with
      | none => none
      | some (ip, s2) =>
        match scanFrac s2 with
        | none => none
        | some (fp, s3) =>
          match scanExp s3 with
          | none => none
          | some (ep, s4) => some (sign ++ ip ++ fp ++ ep, s4)) = some (lit, rest)) :
    rest.length < s1.length := by
  split at h
  · exact absurd h (by simp)
  · rename_i ip s2 hi
    have h1 := scanInt_length _ ip s2 hi
    split at h
    · exact absurd h (by simp)
    · rename_i fp s3 hf
      have h2 := scanFrac_length _ fp s3 hf
      split at h
      · exact absurd h (by simp)
      · rename_i ep s4 he
        have h3 := scanExp_length _ ep s4 he
        simp only [Option.some.injEq, Prod.mk.injEq] at h
        rw [← h.2]
        omega

theorem parseNumber_length (s : List Char) (lit rest : List Char)
    (h : parseNumber s = some (lit, rest)) : rest.length < s.length := by
  cases s with
  | nil => simp [parseNumber, scanInt] at h
  | cons c cs =>
    by_cases hc : c = '-'
    · subst hc
      simp only [parseNumber, if_true] at h
      have := parseNumber_tail_length _ _ _ _ h
      simp only [List.length_cons]; omega
    · simp only [parseNumber, hc, if_false] at h
      exact parseNumber_tail_length _ _ _ _ h

theorem expectLit_length (l s r : List Char) (h : expectLit l s = some r) :
    r.length ≤ s.length := by
  induction l generalizing s with
  | nil =>
    simp only [expectLit, Option.some.injEq] at h
    rw [h]
  | cons x xs ih =>
    cases s with
    | nil => simp [expectLit] at h
    | cons c cs =>
      unfold expectLit at h
      split_ifs at h
      have := ih cs h
      simp only [List.length_cons]; omega

theorem skipWS_cons_length (s : List Char) (c : Char) (rest : List Char)
    (h : skipWS s = c :: rest) : rest.length < s.length := by
  have := skipWS_length_le s
  rw [h] at this
  simp only [List.length_cons] at this
  omega

/-- A successful parse consumes input, and succeeds with any fuel that covers the characters
consumed. -/
theorem parseValue_consumes (g : Nat) :
    (∀ (s : List Char) (v : JSON) (rest : List Char), parseValue g s = some (v, rest) →
      rest.length < s.length ∧
      ∀ f, s.length - rest.length ≤ f → parseValue f s = some (v, rest)) ∧
    (∀ (s : List Char) (ms : List (GoString × JSON)) (rest : List Char),
      parseMembers g s = some (ms, rest) →
      rest.length < s.length ∧
      ∀ f, s.length - rest.length ≤ f → parseMembers f s = some (ms, rest)) ∧
    (∀ (s : List Char) (vs : List JSON) (rest : List Char),
      parseElems g s = some (vs, rest) →
      rest.length < s.length ∧
      ∀ f, s.length - rest.length ≤ f → parseElems f s = some (vs, rest)) := by
  induction g with
  | zero =>
    refine ⟨?_, ?_, ?_⟩ <;> intro s v rest h <;>
      simp [parseValue, parseMembers, parseElems] at h
  | succ g ih =>
    obtain ⟨ihv, ihm, ihe⟩ := ih
    refine ⟨?_, ?_, ?_⟩
    · intro s v rest h
      rw [parseValue] at h
      cases hs : skipWS s with
      | nil => simp [hs] at h
      | cons c r =>
        have hsl := skipWS_cons_length s c r hs
        simp only [hs] at h
        by_cases h1 : c = '{'
        · simp only [h1, if_true] at h
          cases hs1 : skipWS r with
          | nil => simp [hs1] at h
          | cons c1 r1 =>
            have hsl1 := skipWS_length_le r
            rw [hs1] at hsl1
            simp only [List.length_cons] at hsl1
            simp only [hs1] at h
            by_cases h2 : c1 = '}'
            · simp only [h2, if_true, Option.some.injEq, Prod.mk.injEq] at h
              obtain ⟨rfl, rfl⟩ := h
              refine ⟨by omega, ?_⟩
              intro f hf
              obtain ⟨f', rfl⟩ : ∃ f', f = f' + 1 := ⟨f - 1, by omega⟩
              rw [parseValue]
              simp only [hs, h1, if_true, hs1, h2]
            · simp only [h2, if_false] at h
              cases hm : parseMembers g (c1 :: r1) with
              | none => simp [hm] at h
              | some q =>
                obtain ⟨ms, r2⟩ := q
                rw [hm] at h
                simp only [Option.map_some', Option.some.injEq, Prod.mk.injEq] at h
                obtain ⟨rfl, rfl⟩ := h
                obtain ⟨i1, i2⟩ := ihm _ _ _ hm
                simp only [List.length_cons] at i1 i2
                refine ⟨by omega, ?_⟩
                intro f hf
                obtain ⟨f', rfl⟩ : ∃ f', f = f' + 1 := ⟨f - 1, by omega⟩
                rw [parseValue]
                simp only [hs, h1, if_true, hs1, h2, if_false]
                rw [i2 f' (by omega)]
                rfl
        · by_cases h3 : c = '['
          · simp only [h1, h3, if_true, if_false] at h
            cases hs1 : skipWS r with
            | nil => simp [hs1] at h
            | cons c1 r1 =>
              have hsl1 := skipWS_length_le r
              rw [hs1] at hsl1
              simp only [List.length_cons] at hsl1
              simp only [hs1] at h
              by_cases h2 : c1 = ']'
              · simp only [h2, if_true, Option.some.injEq, Prod.mk.injEq] at h
                obtain ⟨rfl, rfl⟩ := h
                refine ⟨by omega, ?_⟩
                intro f hf
                obtain ⟨f', rfl⟩ : ∃ f', f = f' + 1 := ⟨f - 1, by omega⟩
                rw [parseValue]
                simp [hs, h1, h3, hs1, h2]
              · simp only [h2, if_false] at h
                cases hm : parseElems g (c1 :: r1) with
                | none => simp [hm] at h
                | some q =>
                  obtain ⟨vs, r2⟩ := q
                  rw [hm] at h
                  simp only [Option.map_some', Option.some.injEq, Prod.mk.injEq] at h
                  obtain ⟨rfl, rfl⟩ := h
                  obtain ⟨i1, i2⟩ := ihe _ _ _ hm
                  simp only [List.length_cons] at i1 i2
                  refine ⟨by omega, ?_⟩
                  intro f hf
                  obtain ⟨f', rfl⟩ : ∃ f', f = f' + 1 := ⟨f - 1, by omega⟩
                  rw [parseValue]
                  simp only [hs, h1, h3, if_true, if_false, hs1, h2]
                  rw [i2 f' (by omega)]
                  rfl
          · simp only [h1, h3, if_false] at h
            have hrest : rest.length < s.length := by
              split_ifs at h
              · cases hp : parseString r with
                | none => simp [hp] at h
                | some q =>
                  rw [hp] at h
                  simp only [Option.map_some', Option.some.injEq, Prod.mk.injEq] at h
                  have := parseString_length r q.1 q.2 hp
                  rw [← h.2]; omega
              · cases hp : parseNumber (c :: r) with
                | none => simp [hp] at h
                | some q =>
                  rw [hp] at h
                  simp only [Option.map_some', Option.some.injEq, Prod.mk.injEq] at h
                  have := parseNumber_length (c :: r) q.1 q.2 hp
                  simp only [List.length_cons] at this
                  rw [← h.2]; omega
              · cases hp : expectLit ['r', 'u', 'e'] r with
                | none => simp [hp] at h
                | some q =>
                  rw [hp] at h
                  simp only [Option.map_some', Option.some.injEq, Prod.mk.injEq] at h
                  have := expectLit_length _ r q hp
                  rw [← h.2]; omega
              · cases hp : expectLit ['a', 'l', 's', 'e'] r with
                | none => simp [hp] at h
                | some q =>
                  rw [hp] at h
                  simp only [Option.map_some', Option.some.injEq, Prod.mk.injEq] at h
                  have := expectLit_length _ r q hp
                  rw [← h.2]; omega
              · cases hp : expectLit ['u', 'l', 'l'] r with
                | none => simp [hp] at h
                | some q =>
                  rw [hp] at h
                  simp only [Option.map_some', Option.some.injEq, Prod.mk.injEq] at h
                  have := expectLit_length _ r q hp
                  rw [← h.2]; omega
            refine ⟨hrest, ?_⟩
            intro f hf
            obtain ⟨f', rfl⟩ : ∃ f', f = f' + 1 := ⟨f - 1, by omega⟩
            rw [parseValue]
            simp only [hs, h1, h3, if_false]
            exact h
    · intro s ms rest h
      rw [parseMembers] at h
      cases hs : skipWS s with
      | nil => simp [hs] at h
      | cons c r =>
        have hsl := skipWS_cons_length s c r hs
        simp only [hs] at h
        by_cases h1 : c = '"'
        · simp only [h1, if_true] at h
          cases hk : parseString r with
          | none => simp [hk] at h
          | some kr =>
            obtain ⟨key, r1⟩ := kr
            have hkl := parseString_length r key r1 hk
            simp only [hk] at h
            cases hs1 : skipWS r1 with
            | nil => simp [hs1] at h
            | cons c2 r2 =>
              have hsl1 := skipWS_cons_length r1 c2 r2 hs1
              simp only [hs1] at h
              by_cases h2 : c2 = ':'
              · simp only [h2, if_true] at h
                cases hv : parseValue g r2 with
                | none => simp [hv] at h
                | some vr =>
                  obtain ⟨v, r3⟩ := vr
                  obtain ⟨iv1, iv2⟩ := ihv _ _ _ hv
                  simp only [hv] at h
                  cases hs2 : skipWS r3 with
                  | nil => simp [hs2] at h
                  | cons c3 r4 =>
                    have hsl2 := skipWS_cons_length r3 c3 r4 hs2
                    simp only [hs2] at h
                    by_cases h3 : c3 = ','
                    · simp only [h3, if_true] at h
                      cases hm : parseMembers g r4 with
                      | none => simp [hm] at h
                      | some q =>
                        obtain ⟨ms1, r5⟩ := q
                        rw [hm] at h
                        simp only [Option.map_some', Option.some.injEq, Prod.mk.injEq] at h
                        obtain ⟨hv', hr⟩ := h
                        subst hv'; subst hr
                        obtain ⟨i1, i2⟩ := ihm _ _ _ hm
                        refine ⟨by omega, ?_⟩
                        intro f hf
                        obtain ⟨f', rfl⟩ : ∃ f', f = f' + 1 := ⟨f - 1, by omega⟩
                        rw [parseMembers]
                        simp only [hs, h1, if_true, hk, hs1, h2]
                        rw [iv2 f' (by omega)]
                        simp only [hs2, h3, if_true]
                        rw [i2 f' (by omega)]
                        rfl
                    · simp only [h3, if_false] at h
                      by_cases h4 : c3 = '}'
                      · simp only [h4, if_true, Option.some.injEq, Prod.mk.injEq] at h
                        obtain ⟨hv', hr⟩ := h
                        subst hv'; subst hr
                        refine ⟨by omega, ?_⟩
                        intro f hf
                        obtain ⟨f', rfl⟩ : ∃ f', f = f' + 1 := ⟨f - 1, by omega⟩
                        rw [parseMembers]
                        simp only [hs, h1, if_true, hk, hs1, h2]
                        rw [iv2 f' (by omega)]
                        simp [hs2, h4]
                      · simp [h4] at h
              · simp [h2] at h
        · simp [h1] at h
    · intro s vs rest h
      rw [parseElems] at h
      cases hv : parseValue g s with
      | none => simp [hv] at h
      | some vr =>
        obtain ⟨v, r3⟩ := vr
        obtain ⟨iv1, iv2⟩ := ihv _ _ _ hv
        simp only [hv] at h
        cases hs2 : skipWS r3 with
        | nil => simp [hs2] at h
        | cons c3 r4 =>
          have hsl2 := skipWS_cons_length r3 c3 r4 hs2
          simp only [hs2] at h
          by_cases h3 : c3 = ','
          · simp only [h3, if_true] at h
            cases hm : parseElems g r4 with
            | none => simp [hm] at h
            | some q =>
              obtain ⟨vs1, r5⟩ := q
              rw [hm] at h
              simp only [Option.map_some', Option.some.injEq, Prod.mk.injEq] at h
              obtain ⟨hv', hr⟩ := h
              subst hv'; subst hr
              obtain ⟨i1, i2⟩ := ihe _ _ _ hm
              refine ⟨by omega, ?_⟩
              intro f hf
              obtain ⟨f', rfl⟩ : ∃ f', f = f' + 1 := ⟨f - 1, by omega⟩
              rw [parseElems, iv2 f' (by omega)]
              simp only [hs2, h3, if_true]
              rw [i2 f' (by omega)]
              rfl
          · simp only [h3, if_false] at h
            by_cases h4 : c3 = ']'
            · simp only [h4, if_true, Option.some.injEq, Prod.mk.injEq] at h
              obtain ⟨hv', hr⟩ := h
              subst hv'; subst hr
              refine ⟨by omega, ?_⟩
              intro f hf
              obtain ⟨f', rfl⟩ : ∃ f', f = f' + 1 := ⟨f - 1, by omega⟩
              rw [parseElems, iv2 f' (by omega)]
              simp [hs2, h4]
            · simp [h4] at h

/-- The fuel `parseJSON` gives the parser is enough: a text that parses with some fuel parses
with this one, to the same result. -/
theorem parseValue_fuel_adequate (g : Nat) (s : List Char) (v : JSON) (rest : List Char)
    (h : parseValue g s = some (v, rest)) :
    parseValue (s.length + 1) s = some (v, rest) :=
  ((parseValue_consumes g).1 s v rest h).2 _ (by omega)

/-- The fuel of `parseJSON` is enough: a text that parses with some fuel to a value followed by
white space only is accepted by `parseJSON`, with that value. -/
theorem parseJSON_fuel_adequate (g : Nat) (data : List Char) (v : JSON) (rest : List Char)
    (h : parseValue g data = some (v, rest)) (hrest : skipWS rest = []) :
    parseJSON data = some v := by
  unfold parseJSON
  rw [parseValue_fuel_adequate g data v rest h]
  simp [hrest]

theorem GetState_ok (stub : ChaincodeStub) (key : GoString) (h : stub.getErr key = none) :
    stub.GetState key = .ok ((stub.state key).getD []) := by
  simp [ChaincodeStub.GetState, h]

theorem PutState_ok (stub : ChaincodeStub) (key value : GoString) (h : stub.putErr key = none) :
    stub.PutState key value = .ok (stub.set key value) := by
  simp [ChaincodeStub.PutState, h]

theorem PutState_error (stub : ChaincodeStub) (key value : GoString) (e : String)
    (h : stub.putErr key = some e) : stub.PutState key value = .error e := by
  simp [ChaincodeStub.PutState, h]

theorem GetState_error (stub : ChaincodeStub) (key : GoString) (e : String)
    (h : stub.getErr key = some e) : stub.GetState key = .error e := by
  simp [ChaincodeStub.GetState, h]

@[simp] theorem set_getErr (stub : ChaincodeStub) (key value : GoString) :
    (stub.set key value).getErr = stub.getErr := rfl

@[simp] theorem set_putErr (stub : ChaincodeStub) (key value : GoString) :
    (stub.set key value).putErr = stub.putErr := rfl

@[simp] theorem set_state_same (stub : ChaincodeStub) (key value : GoString) :
    (stub.set key value).state key = some value := by
  simp [ChaincodeStub.set]

theorem set_state_other (stub : ChaincodeStub) (key value k : GoString) (h : k ≠ key) :
    (stub.set key value).state k = stub.state k := by
  simp [ChaincodeStub.set, h]

/-- The stub `create_and_submit_trade` leaves when its arguments are valid and the store
operations succeed. -/
theorem create_ok (ToLower : GoString → GoString) (stub : ChaincodeStub)
    (a0 a1 a2 a3 a4 a5 a6 a7 a8 a9 a10 : GoString) (q st nr : Int)
    (hq : Atoi a3 = some q) (hst : Atoi a9 = some st) (hnr : Atoi a10 = some nr)
    (hp1 : stub.putErr (ToLower a8) = none) (hg : stub.getErr tradeIndexStr = none)
    (hp2 : stub.putErr tradeIndexStr = none) :
    create_and_submit_trade ToLower stub [a0, a1, a2, a3, a4, a5, a6, a7, a8, a9, a10] =
      (.ok [], (stub.set (ToLower a8) (tradeJSON (ToLower a0) (ToLower a1) (ToLower a2) q
          (ToLower a4) (ToLower a5) (ToLower a6) (ToLower a7) (ToLower a8) st nr)).set
        tradeIndexStr (MarshalStrings ((UnmarshalStrings
          (((stub.set (ToLower a8) (tradeJSON (ToLower a0) (ToLower a1) (ToLower a2) q
            (ToLower a4) (ToLower a5) (ToLower a6) (ToLower a7) (ToLower a8) st nr)).state
              tradeIndexStr).getD [])).append (ToLower a8)))) := by
  simp [create_and_submit_trade, hq, hst, hnr, ChaincodeStub.PutState, ChaincodeStub.GetState,
    hp1, hg, hp2]

theorem mark_revision_needed_eq (ToLower : GoString → GoString) (stub : ChaincodeStub)
    (args : List GoString) :
    mark_revision_needed ToLower stub args =
      markTrade (fun trade newUser => { trade with User := newUser, NeedsRevision := 1 })
        ToLower stub args "Incorrect number of arguments. Expecting 11" := rfl

theorem mark_revised_eq (ToLower : GoString → GoString) (stub : ChaincodeStub)
    (args : List GoString) :
    mark_revised ToLower stub args =
      markTrade (fun trade newUser => { trade with User := newUser, NeedsRevision := 0 })
        ToLower stub args "Incorrect number of arguments. Expecting 11" := rfl

theorem enrich_and_settle_eq (ToLower : GoString → GoString) (stub : ChaincodeStub)
    (args : List GoString) :
    enrich_and_settle ToLower stub args =
      markTrade
        (fun trade newUser => { trade with User := newUser, NeedsRevision := 0, Settled := 1 })
        ToLower stub args "Incorrect number of arguments. Expecting 2" := rfl

/-- The stub `init` leaves when its argument parses and the two writes succeed. -/
theorem init_ok (stub : ChaincodeStub) (a : GoString) (n : Int) (hn : Atoi a = some n)
    (hp1 : stub.putErr "abc".toList = none) (hp2 : stub.putErr tradeIndexStr = none) :
    init stub [a] =
      (Except.ok [], (stub.set "abc".toList (Itoa n)).set tradeIndexStr (MarshalStrings none)) := by
  unfold init
  simp only [List.length_singleton, ne_eq, not_true_eq_false, if_false, List.getD_cons_zero,
    hn]
  rw [PutState_ok _ _ _ hp1]
  simp only
  rw [PutState_ok _ _ _ (by simpa using hp2)]

theorem tradeIndexOf_init (stub : ChaincodeStub) (v : GoString) :
    tradeIndexOf ((stub.set "abc".toList v).set tradeIndexStr (MarshalStrings none)) = [] := by
  unfold tradeIndexOf
  rw [set_state_same]
  simp only [Option.getD_some]
  rw [UnmarshalStrings_null]
  rfl

/-- The stub a marking function leaves when its two arguments are non-empty and the store
operations succeed. -/
theorem markTrade_ok (update : Trade → GoString → Trade) (ToLower : GoString → GoString)
    (stub : ChaincodeStub) (ts u : GoString) (msg : String) (hts : ts ≠ []) (hu : u ≠ [])
    (hg : stub.getErr (ToLower ts) = none) (hp : stub.putErr (ToLower ts) = none) :
    markTrade update ToLower stub [ts, u] msg =
      (.ok [], stub.set (ToLower ts)
        (MarshalTrade (update (tradeAt stub (ToLower ts)) (ToLower u)))) := by
  have h1 : ¬ ts.length ≤ 0 := by
    cases ts with
    | nil => exact absurd rfl hts
    | cons c cs => simp
  have h2 : ¬ u.length ≤ 0 := by
    cases u with
    | nil => exact absurd rfl hu
    | cons c cs => simp
  simp [markTrade, h1, h2, ChaincodeStub.PutState, ChaincodeStub.GetState, hg, hp, tradeAt]

/-- A marking function that succeeds was given two non-empty arguments and met no store
error. -/
theorem markTrade_success (update : Trade → GoString → Trade) (ToLower : GoString → GoString)
    (stub : ChaincodeStub) (ts u : GoString) (msg : String)
    (h : (markTrade update ToLower stub [ts, u] msg).1.isError = false) :
    ts ≠ [] ∧ u ≠ [] ∧ stub.getErr (ToLower ts) = none ∧ stub.putErr (ToLower ts) = none := by
  refine ⟨?_, ?_, ?_, ?_⟩
  · rintro rfl
    simp [markTrade, Response.isError] at h
  · rintro rfl
    by_cases h1 : ts.length ≤ 0 <;> simp [markTrade, Response.isError, h1] at h
  · cases hg : stub.getErr (ToLower ts) with
    | none => rfl
    | some e =>
      exfalso
      by_cases h1 : ts.length ≤ 0 <;> by_cases h2 : u.length ≤ 0 <;>
        simp [markTrade, Response.isError, h1, h2, ChaincodeStub.GetState, hg] at h
  · cases hp : stub.putErr (ToLower ts) with
    | none => rfl
    | some e =>
      exfalso
      by_cases h1 : ts.length ≤ 0 <;> by_cases h2 : u.length ≤ 0 <;>
        cases hg : stub.getErr (ToLower ts) <;>
        simp [markTrade, Response.isError, h1, h2, ChaincodeStub.GetState,
          ChaincodeStub.PutState, hg, hp] at h

theorem tradeAt_WF (stub : ChaincodeStub) (key : GoString) : (tradeAt stub key).WF :=
  UnmarshalTrade_WF _ _ zeroTrade_WF

theorem Atoi_inIntRange (s : GoString) (n : Int) (h : Atoi s = some n) : inIntRange n :=
  ParseInt_inIntRange s n h

/-- C7. Through `Invoke`, each of the six functions called with a number of arguments other
than the one it expects returns an error and leaves the stub as it was. -/
theorem invoke_wrong_argument_count (ToLower : GoString → GoString) (stub : ChaincodeStub)
    (function : GoString) (args : List GoString) (n : Nat)
    (hn : expectedArgs function = some n) (hlen : args.length ≠ n) :
    (Invoke ToLower stub function args).1.isError = true ∧
      (Invoke ToLower stub function args).2 = stub := by
  unfold expectedArgs at hn
  split_ifs at hn with h1 h2 h3 h4 h5 h6 <;>
    simp only [Option.some.injEq] at hn <;> subst hn
  · subst h1
    simp [Invoke, init, hlen, Response.isError]
  · simp [Invoke, h1, h2, write, hlen, Response.isError]
  · simp [Invoke, h1, h2, h3, create_and_submit_trade, hlen, Response.isError]
  · simp [Invoke, h1, h2, h3, h4, mark_revision_needed, markTrade, hlen, Response.isError]
  · simp [Invoke, h1, h2, h3, h4, h5, mark_revised, markTrade, hlen, Response.isError]
  · simp [Invoke, h1, h2, h3, h4, h5, h6, enrich_and_settle, markTrade, hlen, Response.isError]

/-- C7, at `write` called with one argument on the empty store. -/
theorem invoke_wrong_argument_count_witness :
    (Invoke asciiToLower emptyStub "write".toList ["k".toList]).1.isError = true ∧
      (Invoke asciiToLower emptyStub "write".toList ["k".toList]).2 = emptyStub :=
  invoke_wrong_argument_count asciiToLower emptyStub "write".toList ["k".toList] 2
    (by decide) (by decide)

/-- C8. For every prior store: `init` on one argument that parses as the integer `n`, the
two writes succeeding, succeeds, leaves under `abc` the decimal text of `n` (the text the
core library prints for `n`) and under `_tradeindex` the text `null`, which the decoder
accepts without error and decodes to the empty sequence, whatever the index held before;
`init` returns an error and leaves the store as it was on any other number of arguments and
on an argument that does not parse as an integer. -/
theorem init_resets (stub : ChaincodeStub) :
    (∀ (a : GoString) (n : Int), Atoi a = some n → stub.putErr "abc".toList = none →
      stub.putErr tradeIndexStr = none →
        (init stub [a]).1 = Except.ok [] ∧
        (init stub [a]).2.state "abc".toList = some (toString n).toList ∧
        (init stub [a]).2.state tradeIndexStr = some "null".toList ∧
        UnmarshalStringsFails (((init stub [a]).2.state tradeIndexStr).getD []) = false ∧
        tradeIndexOf (init stub [a]).2 = []) ∧
    (∀ args : List GoString, args.length ≠ 1 →
      (init stub args).1.isError = true ∧ (init stub args).2 = stub) ∧
    (∀ b : GoString, Atoi b = none →
      (init stub [b]).1.isError = true ∧ (init stub [b]).2 = stub) := by
  refine ⟨?_, ?_, ?_⟩
  · intro a n hn hp1 hp2
    have hinit := init_ok stub a n hn hp1 hp2
    rw [hinit]
    refine ⟨rfl, ?_, ?_, ?_, ?_⟩
    · simp only
      rw [set_state_other _ _ _ _ (by decide), set_state_same, Itoa_eq_toString]
    · simp only
      rw [set_state_same]
      rfl
    · simp only
      rw [set_state_same]
      decide
    · exact tradeIndexOf_init stub _
  · intro args hlen
    simp [init, hlen, Response.isError]
  · intro b hb
    simp [init, hb, Response.isError]

/-- C8, on a store that holds `7` under `abc` and an index with the entry `t1`: `init` with
the seed `5` leaves the text `5` under `abc` and the text `null`, an empty index, under
`_tradeindex`; with two arguments, and with the argument `five`, it fails and changes
nothing. -/
theorem init_resets_witness :
    (indexedStub.state "abc".toList = some "7".toList ∧
      tradeIndexOf indexedStub = ["t1".toList]) ∧
    ((init indexedStub ["5".toList]).1 = Except.ok [] ∧
      (init indexedStub ["5".toList]).2.state "abc".toList = some "5".toList ∧
      (init indexedStub ["5".toList]).2.state tradeIndexStr = some "null".toList ∧
      UnmarshalStringsFails
        (((init indexedStub ["5".toList]).2.state tradeIndexStr).getD []) = false ∧
      tradeIndexOf (init indexedStub ["5".toList]).2 = []) ∧
    ((init indexedStub ["5".toList, "6".toList]).1.isError = true ∧
      (init indexedStub ["5".toList, "6".toList]).2 = indexedStub) ∧
    ((init indexedStub ["five".toList]).1.isError = true ∧
      (init indexedStub ["five".toList]).2 = indexedStub) :=
  ⟨by decide,
    (init_resets indexedStub).1 "5".toList 5 (by decide) rfl rfl,
    (init_resets indexedStub).2.1 ["5".toList, "6".toList] (by decide),
    (init_resets indexedStub).2.2 "five".toList (by decide)⟩

/-- C10, counterexample. `Init`, an entry point other than `Invoke`, reaches the
store-mutating function `init`: on the empty store it writes the key `abc`. -/
theorem init_entry_point_mutates :
    emptyStub.state "abc".toList = none ∧
      (Init emptyStub "init".toList ["5".toList]).2.state "abc".toList = some "5".toList := by
  decide

/-- C10, amended. `Query` fails with the unknown-function error and leaves the stub as it was
unless the name is `read`, and never changes the stub; `Invoke` fails with the
unknown-function error and leaves the stub as it was unless the name is one of its six;
`Init` does the same unless the name is `init`, which it dispatches to the function `init`;
`Run` dispatches as `Invoke` does. -/
theorem entry_point_dispatch (ToLower : GoString → GoString) (stub : ChaincodeStub)
    (function : GoString) (args : List GoString) :
    (function ≠ "read".toList →
      Query stub function args = (Except.error "Received unknown function query", stub)) ∧
    (Query stub function args).2 = stub ∧
    (function ∉ invokeNames →
      Invoke ToLower stub function args =
        (Except.error "Received unknown function invocation", stub)) ∧
    (function ≠ "init".toList →
      Init stub function args = (Except.error "Received unknown function invocation", stub)) ∧
    Init stub "init".toList args = init stub args ∧
    Run ToLower stub function args = Invoke ToLower stub function args := by
  refine ⟨?_, ?_, ?_, ?_, ?_, ?_⟩
  · intro h
    unfold Query
    rw [if_neg h]
  · unfold Query
    split_ifs
    · unfold SimpleChaincode.read
      split_ifs
      · rfl
      · simp only
        split <;> rfl
    · rfl
  · intro h
    simp only [invokeNames, List.mem_cons, List.mem_singleton, not_or, List.not_mem_nil,
      or_false] at h
    obtain ⟨h1, h2, h3, h4, h5, h6⟩ := h
    unfold Invoke
    rw [if_neg h1, if_neg h2, if_neg h3, if_neg h4, if_neg h5, if_neg h6]
  · intro h
    unfold Init
    rw [if_neg h]
  · unfold Init
    rw [if_pos rfl]
  · rfl

/-- C10 amended, at the name `write` given to `Query` on the empty store. -/
theorem entry_point_dispatch_witness :
    Query emptyStub "write".toList ["k".toList, "v".toList] =
      (Except.error "Received unknown function query", emptyStub) :=
  (entry_point_dispatch asciiToLower emptyStub "write".toList
    ["k".toList, "v".toList]).1 (by decide)

/-- C5, the failing input. On a store where writing the trade index fails,
`create_and_submit_trade` with valid arguments returns no error: the trade is stored and the
index is not updated. -/
theorem create_ignores_index_write_error :
    indexWriteFailsStub.putErr tradeIndexStr = some "PutState failed" ∧
    (create_and_submit_trade asciiToLower indexWriteFailsStub
      (exampleArgs "alice" "t1")).1 = Except.ok [] ∧
    ((create_and_submit_trade asciiToLower indexWriteFailsStub
      (exampleArgs "alice" "t1")).2.state "t1".toList).isSome = true ∧
    tradeIndexOf (create_and_submit_trade asciiToLower indexWriteFailsStub
      (exampleArgs "alice" "t1")).2 = [] :=
  ⟨rfl, rfl, by decide, by decide⟩

/-- C6, the failing input. On the empty store `mark_revision_needed` returns no error and
writes a record under the timestamp: the zero trade with the user and the revision flag
set. -/
theorem mark_revision_needed_absent_trade :
    emptyStub.state "t1".toList = none ∧
    (mark_revision_needed asciiToLower emptyStub ["t1".toList, "bob".toList]).1 =
      Except.ok [] ∧
    (mark_revision_needed asciiToLower emptyStub ["t1".toList, "bob".toList]).2.state
      "t1".toList = some (("\x7b\"tradedate\":\"\",\"valuedate\":\"\",\"operation\":\"\"," ++
        "\"quantity\":\"0\",\"security\":\"\",\"price\":\"\",\"counterparty\":\"\"," ++
        "\"user\":\"bob\",\"timestamp\":\"\",\"settled\":\"0\",\"needsrevision\":\"1\"\x7d").toList) :=
  ⟨rfl, rfl, by decide⟩

/-- C1, the failing input. With a double quote as the trade date the call succeeds and the
text stored under the timestamp is not JSON. -/
theorem create_stores_malformed_json :
    (create_and_submit_trade asciiToLower emptyStub quotedDateArgs).1 = Except.ok [] ∧
    (create_and_submit_trade asciiToLower emptyStub quotedDateArgs).2.state "t1".toList =
      some (("\x7b\"tradedate\": \"\"\", \"valuedate\": \"2015-01-02\", \"operation\": \"buy\", " ++
        "\"quantity\": 100, \"security\": \"goog\", \"price\": \"500\", " ++
        "\"counterparty\": \"cpty1\", \"user\": \"alice\", \"timestamp\": \"t1\", " ++
        "\"settled\": \"0\", \"needsrevision\": \"0\"\x7d").toList) ∧
    parseJSON (((create_and_submit_trade asciiToLower emptyStub quotedDateArgs).2.state
      "t1".toList).getD []) = none :=
  ⟨rfl, by decide, rfl⟩

theorem length_eq_eleven (args : List GoString) (h : args.length = 11) :
    ∃ a0 a1 a2 a3 a4 a5 a6 a7 a8 a9 a10, args = [a0, a1, a2, a3, a4, a5, a6, a7, a8, a9, a10] := by
  match args, h with
  | [a0, a1, a2, a3, a4, a5, a6, a7, a8, a9, a10], _ =>
    exact ⟨a0, a1, a2, a3, a4, a5, a6, a7, a8, a9, a10, rfl⟩

theorem tradeAt_set_same (stub : ChaincodeStub) (key : GoString) (t : Trade) (h : t.WF) :
    tradeAt (stub.set key (MarshalTrade t)) key = t := by
  unfold tradeAt
  rw [set_state_same]
  exact UnmarshalTrade_MarshalTrade t zeroTrade h

theorem tradeIndexOf_set (stub : ChaincodeStub) (v : StringSlice) (s : GoString) :
    tradeIndexOf (stub.set tradeIndexStr (MarshalStrings (v.append s))) = v.elems ++ [s] := by
  unfold tradeIndexOf StringSlice.append
  rw [set_state_same]
  simp only [Option.getD_some]
  rw [UnmarshalStrings_MarshalStrings]
  rfl

theorem inIntRange_zero : inIntRange 0 := by decide

theorem inIntRange_one : inIntRange 1 := by decide

/-- After a successful marking function the record under the lower-cased timestamp decodes
to the updated trade. -/
theorem markTrade_decodes (update : Trade → GoString → Trade) (ToLower : GoString → GoString)
    (stub : ChaincodeStub) (ts u : GoString) (msg : String)
    (hwf : (update (tradeAt stub (ToLower ts)) (ToLower u)).WF)
    (h : (markTrade update ToLower stub [ts, u] msg).1.isError = false) :
    tradeAt (markTrade update ToLower stub [ts, u] msg).2 (ToLower ts) =
      update (tradeAt stub (ToLower ts)) (ToLower u) := by
  obtain ⟨hts, hu, hg, hp⟩ := markTrade_success _ ToLower stub ts u _ h
  rw [markTrade_ok _ ToLower stub ts u _ hts hu hg hp]
  exact tradeAt_set_same _ _ _ hwf

/-- C9, counterexample. On a store holding under `T1` a record with `needsrevision` 1 and
`settled` 0, `enrich_and_settle` called with the timestamp `T1` succeeds and the record
under `T1` decodes as before: the function read and wrote under `t1`. -/
theorem enrich_and_settle_uppercase_timestamp :
    (enrich_and_settle asciiToLower upperKeyStub ["T1".toList, "bob".toList]).1.isError =
      false ∧
    (tradeAt (enrich_and_settle asciiToLower upperKeyStub ["T1".toList, "bob".toList]).2
      "T1".toList).NeedsRevision = 1 ∧
    (tradeAt (enrich_and_settle asciiToLower upperKeyStub ["T1".toList, "bob".toList]).2
      "T1".toList).Settled = 0 := by
  decide

/-- C9, amended. After a successful `enrich_and_settle(ts, u)` the record stored under the
lower-cased `ts` decodes with `needsrevision == 0` and `settled == 1`; after a successful
`mark_revised(ts, u)` it decodes with `needsrevision == 0` and `settled` equal to the value
the record under that key decoded to before the call. -/
theorem settle_and_revise_flags (ToLower : GoString → GoString) (stub : ChaincodeStub)
    (ts u : GoString) :
    ((enrich_and_settle ToLower stub [ts, u]).1.isError = false →
      (tradeAt (enrich_and_settle ToLower stub [ts, u]).2 (ToLower ts)).NeedsRevision = 0 ∧
      (tradeAt (enrich_and_settle ToLower stub [ts, u]).2 (ToLower ts)).Settled = 1) ∧
    ((mark_revised ToLower stub [ts, u]).1.isError = false →
      (tradeAt (mark_revised ToLower stub [ts, u]).2 (ToLower ts)).NeedsRevision = 0 ∧
      (tradeAt (mark_revised ToLower stub [ts, u]).2 (ToLower ts)).Settled =
        (tradeAt stub (ToLower ts)).Settled) := by
  have hwf := tradeAt_WF stub (ToLower ts)
  constructor
  · intro h
    rw [enrich_and_settle_eq] at h ⊢
    rw [markTrade_decodes _ ToLower stub ts u _ ⟨hwf.1, inIntRange_one, inIntRange_zero⟩ h]
    exact ⟨rfl, rfl⟩
  · intro h
    rw [mark_revised_eq] at h ⊢
    rw [markTrade_decodes _ ToLower stub ts u _ ⟨hwf.1, hwf.2.1, inIntRange_zero⟩ h]
    exact ⟨rfl, rfl⟩

/-- C9 amended, on records that exist under `t1`, called with the timestamp `T1` and the user
`Bob`. A created trade with `needsrevision` 1 and `settled` 0 decodes after
`enrich_and_settle` with `needsrevision` 0 and `settled` 1; a created trade with
`needsrevision` 1 and `settled` 1 decodes after `mark_revised` with `needsrevision` 0 and
`settled` 1, its value before the call. -/
theorem settle_and_revise_flags_witness :
    ((tradeAt unsettledTradeStub "t1".toList).NeedsRevision = 1 ∧
      (tradeAt unsettledTradeStub "t1".toList).Settled = 0 ∧
      (tradeAt flaggedTradeStub "t1".toList).NeedsRevision = 1 ∧
      (tradeAt flaggedTradeStub "t1".toList).Settled = 1) ∧
    ((tradeAt (enrich_and_settle asciiToLower unsettledTradeStub
        ["T1".toList, "Bob".toList]).2 (asciiToLower "T1".toList)).NeedsRevision = 0 ∧
      (tradeAt (enrich_and_settle asciiToLower unsettledTradeStub
        ["T1".toList, "Bob".toList]).2 (asciiToLower "T1".toList)).Settled = 1) ∧
    ((tradeAt (mark_revised asciiToLower flaggedTradeStub
        ["T1".toList, "Bob".toList]).2 (asciiToLower "T1".toList)).NeedsRevision = 0 ∧
      (tradeAt (mark_revised asciiToLower flaggedTradeStub
        ["T1".toList, "Bob".toList]).2 (asciiToLower "T1".toList)).Settled = 1) :=
  ⟨by decide,
    (settle_and_revise_flags asciiToLower unsettledTradeStub "T1".toList "Bob".toList).1
      (by decide),
    ((settle_and_revise_flags asciiToLower flaggedTradeStub "T1".toList "Bob".toList).2
      (by decide)).1,
    ((settle_and_revise_flags asciiToLower flaggedTradeStub "T1".toList "Bob".toList).2
      (by decide)).2.trans (by decide)⟩

/-- The index after one `create_and_submit_trade` with valid arguments on a store whose
operations succeed. -/
theorem create_index (ToLower : GoString → GoString) (stub : ChaincodeStub)
    (args : List GoString) (hv : ValidTradeArgs args)
    (hp1 : stub.putErr (ToLower (args.getD 8 [])) = none)
    (hg : stub.getErr tradeIndexStr = none) (hp2 : stub.putErr tradeIndexStr = none) :
    (create_and_submit_trade ToLower stub args).1 = Except.ok [] ∧
    (create_and_submit_trade ToLower stub args).2.getErr = stub.getErr ∧
    (create_and_submit_trade ToLower stub args).2.putErr = stub.putErr ∧
    (ToLower (args.getD 8 []) ≠ tradeIndexStr →
      tradeIndexOf (create_and_submit_trade ToLower stub args).2 =
        tradeIndexOf stub ++ [ToLower (args.getD 8 [])]) ∧
    (ToLower (args.getD 8 []) = tradeIndexStr →
      tradeIndexOf (create_and_submit_trade ToLower stub args).2 =
        [ToLower (args.getD 8 [])]) := by
  obtain ⟨hlen, hq, hst, hnr⟩ := hv
  obtain ⟨a0, a1, a2, a3, a4, a5, a6, a7, a8, a9, a10, rfl⟩ := length_eq_eleven args hlen
  simp only [List.getD_cons_succ, List.getD_cons_zero] at hp1 hq hst hnr ⊢
  obtain ⟨q, hq⟩ := Option.isSome_iff_exists.1 hq
  obtain ⟨st, hst⟩ := Option.isSome_iff_exists.1 hst
  obtain ⟨nr, hnr⟩ := Option.isSome_iff_exists.1 hnr
  rw [create_ok ToLower stub a0 a1 a2 a3 a4 a5 a6 a7 a8 a9 a10 q st nr hq hst hnr hp1 hg hp2]
  refine ⟨rfl, rfl, rfl, ?_, ?_⟩
  · intro hne
    simp only
    rw [tradeIndexOf_set, set_state_other _ _ _ _ (Ne.symm hne)]
    rfl
  · intro he
    simp only
    rw [tradeIndexOf_set, he, set_state_same]
    simp only [Option.getD_some]
    rw [UnmarshalStrings_tradeJSON]
    rfl

/-- C3, counterexample. Two successful calls with the same timestamp leave it twice in the
index. -/
theorem create_same_timestamp_twice :
    (runCreates asciiToLower (init emptyStub ["5".toList]).2
      [exampleArgs "alice" "t1", exampleArgs "alice" "t1"]).1.map Response.isError =
        [false, false] ∧
    tradeIndexOf (runCreates asciiToLower (init emptyStub ["5".toList]).2
      [exampleArgs "alice" "t1", exampleArgs "alice" "t1"]).2 = ["t1".toList, "t1".toList] ∧
    (tradeIndexOf (runCreates asciiToLower (init emptyStub ["5".toList]).2
      [exampleArgs "alice" "t1", exampleArgs "alice" "t1"]).2).count "t1".toList = 2 := by
  decide

/-- C3, amended. After `create_and_submit_trade` with valid arguments on a store whose
operations succeed, the call has succeeded, the lower-cased timestamp is the last element of
the decoded index, and it occurs there exactly once when the index decoded before the call
did not hold it. -/
theorem create_appends_timestamp (ToLower : GoString → GoString) (stub : ChaincodeStub)
    (args : List GoString) (hv : ValidTradeArgs args)
    (hp1 : stub.putErr (ToLower (args.getD 8 [])) = none)
    (hg : stub.getErr tradeIndexStr = none) (hp2 : stub.putErr tradeIndexStr = none) :
    (create_and_submit_trade ToLower stub args).1 = Except.ok [] ∧
    (tradeIndexOf (create_and_submit_trade ToLower stub args).2).getLast? =
      some (ToLower (args.getD 8 [])) ∧
    (ToLower (args.getD 8 []) ∉ tradeIndexOf stub →
      (tradeIndexOf (create_and_submit_trade ToLower stub args).2).count
        (ToLower (args.getD 8 [])) = 1) := by
  obtain ⟨hok, -, -, hne, heq⟩ := create_index ToLower stub args hv hp1 hg hp2
  by_cases hk : ToLower (args.getD 8 []) = tradeIndexStr
  · rw [heq hk]
    exact ⟨hok, by simp, fun _ => by simp⟩
  · rw [hne hk]
    refine ⟨hok, by simp, fun hnot => ?_⟩
    rw [List.count_append, List.count_eq_zero_of_not_mem hnot]
    simp

/-- C3 amended, at the example trade with the timestamp `T1` on the store left by `init`. -/
theorem create_appends_timestamp_witness :
    (create_and_submit_trade asciiToLower (init emptyStub ["5".toList]).2
      (exampleArgs "Alice" "T1")).1 = Except.ok [] ∧
    (tradeIndexOf (create_and_submit_trade asciiToLower (init emptyStub ["5".toList]).2
      (exampleArgs "Alice" "T1")).2).getLast? =
        some (asciiToLower ((exampleArgs "Alice" "T1").getD 8 [])) ∧
    (tradeIndexOf (create_and_submit_trade asciiToLower (init emptyStub ["5".toList]).2
      (exampleArgs "Alice" "T1")).2).count
        (asciiToLower ((exampleArgs "Alice" "T1").getD 8 [])) = 1 :=
  ⟨(create_appends_timestamp asciiToLower (init emptyStub ["5".toList]).2
      (exampleArgs "Alice" "T1") (by decide) rfl rfl rfl).1,
    (create_appends_timestamp asciiToLower (init emptyStub ["5".toList]).2
      (exampleArgs "Alice" "T1") (by decide) rfl rfl rfl).2.1,
    (create_appends_timestamp asciiToLower (init emptyStub ["5".toList]).2
      (exampleArgs "Alice" "T1") (by decide) rfl rfl rfl).2.2 (by decide)⟩

theorem runCreates_index (ToLower : GoString → GoString) (argss : List (List GoString)) :
    ∀ stub : ChaincodeStub, stub.NoFaults →
      (∀ args ∈ argss, ValidTradeArgs args ∧ ToLower (args.getD 8 []) ≠ tradeIndexStr) →
      (∀ r ∈ (runCreates ToLower stub argss).1, r = Except.ok []) ∧
      tradeIndexOf (runCreates ToLower stub argss).2 =
        tradeIndexOf stub ++ argss.map (fun args => ToLower (args.getD 8 [])) := by
  induction argss with
  | nil =>
    intro stub _ _
    simp [runCreates]
  | cons args rest ih =>
    intro stub hnf hv
    obtain ⟨hvalid, hkey⟩ := hv args (List.mem_cons_self _ _)
    obtain ⟨hok, hge, hpe, hidx, -⟩ := create_index ToLower stub args hvalid
      (hnf _).2 (hnf _).1 (hnf _).2
    have hnf' : (create_and_submit_trade ToLower stub args).2.NoFaults := by
      intro k
      rw [hge, hpe]
      exact hnf k
    obtain ⟨ih1, ih2⟩ := ih (create_and_submit_trade ToLower stub args).2 hnf'
      (fun a ha => hv a (List.mem_cons_of_mem _ ha))
    simp only [runCreates]
    refine ⟨?_, ?_⟩
    · intro r hr
      rcases List.mem_cons.1 hr with h | h
      · rw [h, hok]
      · exact ih1 r h
    · rw [ih2, hidx hkey]
      simp

/-- C4, counterexample. After `init`, two successful calls of which the second has the
timestamp `_tradeindex` leave an index of length one: the first timestamp is gone. -/
theorem create_with_index_key_as_timestamp :
    (runCreates asciiToLower (init emptyStub ["5".toList]).2
      [exampleArgs "alice" "t1", exampleArgs "alice" "_tradeindex"]).1.map Response.isError =
        [false, false] ∧
    tradeIndexOf (runCreates asciiToLower (init emptyStub ["5".toList]).2
      [exampleArgs "alice" "t1", exampleArgs "alice" "_tradeindex"]).2 =
        ["_tradeindex".toList] := by
  decide

/-- C4, amended. From the state left by a successful `init`, on a store whose operations
succeed, a sequence of `create_and_submit_trade` calls with valid arguments none of whose
lower-cased timestamps is the index key `_tradeindex` succeeds call by call and leaves an
index that decodes to the lower-cased timestamps in call order, one per call; the index after
the first `k` calls is the first `k` entries of the final index. -/
theorem index_after_creates (ToLower : GoString → GoString) (stub : ChaincodeStub)
    (seed : GoString) (n : Int) (argss : List (List GoString)) (hseed : Atoi seed = some n)
    (hnf : stub.NoFaults)
    (hv : ∀ args ∈ argss, ValidTradeArgs args ∧ ToLower (args.getD 8 []) ≠ tradeIndexStr) :
    (init stub [seed]).1 = Except.ok [] ∧
    (∀ r ∈ (runCreates ToLower (init stub [seed]).2 argss).1, r = Except.ok []) ∧
    tradeIndexOf (runCreates ToLower (init stub [seed]).2 argss).2 =
      argss.map (fun args => ToLower (args.getD 8 [])) ∧
    (tradeIndexOf (runCreates ToLower (init stub [seed]).2 argss).2).length = argss.length ∧
    (∀ k : Nat, tradeIndexOf (runCreates ToLower (init stub [seed]).2 (argss.take k)).2 =
      (tradeIndexOf (runCreates ToLower (init stub [seed]).2 argss).2).take k) := by
  have hinit := init_ok stub seed n hseed (hnf _).2 (hnf _).2
  have hok : (init stub [seed]).1 = Except.ok [] := by rw [hinit]
  have hidx : tradeIndexOf (init stub [seed]).2 = [] := by
    rw [hinit]
    exact tradeIndexOf_init stub _
  have hnf' : (init stub [seed]).2.NoFaults := by
    rw [hinit]
    exact hnf
  obtain ⟨h1, h2⟩ := runCreates_index ToLower argss _ hnf' hv
  rw [hidx, List.nil_append] at h2
  refine ⟨hok, h1, h2, by rw [h2, List.length_map], ?_⟩
  intro k
  obtain ⟨-, h3⟩ := runCreates_index ToLower (argss.take k) _ hnf'
    (fun a ha => hv a (List.mem_of_mem_take ha))
  rw [hidx, List.nil_append] at h3
  rw [h3, h2, List.map_take]

/-- C4 amended, at two trades with the timestamps `T1` and `T2` on the empty store. -/
theorem index_after_creates_witness :
    tradeIndexOf (runCreates asciiToLower (init emptyStub ["5".toList]).2
      [exampleArgs "alice" "T1", exampleArgs "bob" "T2"]).2 =
      [exampleArgs "alice" "T1", exampleArgs "bob" "T2"].map
        (fun args => asciiToLower (args.getD 8 [])) :=
  (index_after_creates asciiToLower emptyStub "5".toList 5
    [exampleArgs "alice" "T1", exampleArgs "bob" "T2"] (by decide) (fun _ => ⟨rfl, rfl⟩)
    (by decide)).2.2.1

/-- C2, the failing input. The example trade is created with the quantity 100 and the text
stored under `t1` holds `"quantity": 100`; `mark_revision_needed` with the timestamp `t1`
and the user `bob` succeeds, and the record it leaves under `t1` holds `"quantity":"0"` and
decodes with the quantity 0: the quantity the trade was created with is lost. -/
theorem mark_revision_needed_loses_quantity :
    Atoi ((exampleArgs "alice" "t1").getD 3 []) = some 100 ∧
    (create_and_submit_trade asciiToLower emptyStub (exampleArgs "alice" "t1")).2.state
      "t1".toList =
      some (("\x7b\"tradedate\": \"2015-01-01\", \"valuedate\": \"2015-01-02\", " ++
        "\"operation\": \"buy\", \"quantity\": 100, \"security\": \"goog\", " ++
        "\"price\": \"500\", \"counterparty\": \"cpty1\", \"user\": \"alice\", " ++
        "\"timestamp\": \"t1\", \"settled\": \"0\", \"needsrevision\": \"0\"\x7d").toList) ∧
    (mark_revision_needed asciiToLower
      (create_and_submit_trade asciiToLower emptyStub (exampleArgs "alice" "t1")).2
      ["t1".toList, "bob".toList]).1 = Except.ok [] ∧
    (mark_revision_needed asciiToLower
      (create_and_submit_trade asciiToLower emptyStub (exampleArgs "alice" "t1")).2
      ["t1".toList, "bob".toList]).2.state "t1".toList =
      some (("\x7b\"tradedate\":\"2015-01-01\",\"valuedate\":\"2015-01-02\"," ++
        "\"operation\":\"buy\",\"quantity\":\"0\",\"security\":\"goog\",\"price\":\"500\"," ++
        "\"counterparty\":\"cpty1\",\"user\":\"bob\",\"timestamp\":\"t1\",\"settled\":\"0\"," ++
        "\"needsrevision\":\"1\"\x7d").toList) ∧
    (tradeAt (mark_revision_needed asciiToLower
      (create_and_submit_trade asciiToLower emptyStub (exampleArgs "alice" "t1")).2
      ["t1".toList, "bob".toList]).2 "t1".toList).Quantity = 0 :=
  ⟨by decide, by decide, rfl, by decide, by decide⟩

/-- For every store, a successful `mark_revision_needed(ts, u)` leaves under the lower-cased
`ts` a record that decodes to what the record under that key decoded to before the call, with
the user set to the lower-cased `u` and `needsrevision` set to 1. -/
theorem mark_revision_needed_updates (ToLower : GoString → GoString) (stub : ChaincodeStub)
    (ts u : GoString)
    (h : (mark_revision_needed ToLower stub [ts, u]).1.isError = false) :
    tradeAt (mark_revision_needed ToLower stub [ts, u]).2 (ToLower ts) =
      { tradeAt stub (ToLower ts) with User := ToLower u, NeedsRevision := 1 } := by
  have hwf := tradeAt_WF stub (ToLower ts)
  rw [mark_revision_needed_eq] at h ⊢
  exact markTrade_decodes _ ToLower stub ts u _ ⟨hwf.1, hwf.2.1, inIntRange_one⟩ h

/-- The user is stored lower-cased: `mark_revision_needed` called with the user `Bob` leaves
a record whose user decodes to `bob`. -/
theorem mark_revision_needed_lowercases_user :
    (mark_revision_needed asciiToLower
      (create_and_submit_trade asciiToLower emptyStub (exampleArgs "alice" "t1")).2
      ["t1".toList, "Bob".toList]).1.isError = false ∧
    (tradeAt (mark_revision_needed asciiToLower
      (create_and_submit_trade asciiToLower emptyStub (exampleArgs "alice" "t1")).2
      ["t1".toList, "Bob".toList]).2 "t1".toList).User = "bob".toList := by
  decide

/-- The loss of the quantity in general. For a trade stored by `create_and_submit_trade`
from arguments whose lower-cased strings hold no double quote, backslash or control character
and whose lower-cased timestamp is not the index key, on a store whose operations succeed,
`mark_revision_needed` with a non-empty timestamp that lower-cases to the trade's key and a
non-empty user succeeds, and the record then stored under the key decodes with the quantity
0, whatever quantity the trade was created with; the user is the lower-cased user,
`needsrevision` is 1, and the other fields are the lower-cased or parsed arguments the trade
was created from. -/
theorem mark_revision_needed_after_create (ToLower : GoString → GoString)
    (stub : ChaincodeStub) (args : List GoString) (q st nr : Int) (tsArg u : GoString)
    (hlen : args.length = 11) (hq : Atoi (args.getD 3 []) = some q)
    (hst : Atoi (args.getD 9 []) = some st) (hnr : Atoi (args.getD 10 []) = some nr)
    (hclean : CleanTradeArgs ToLower args) (hkey : ToLower (args.getD 8 []) ≠ tradeIndexStr)
    (hts : tsArg ≠ []) (hu : u ≠ []) (hsame : ToLower tsArg = ToLower (args.getD 8 []))
    (hnf : stub.NoFaults) :
    (mark_revision_needed ToLower (create_and_submit_trade ToLower stub args).2
      [tsArg, u]).1 = Except.ok [] ∧
    tradeAt (mark_revision_needed ToLower (create_and_submit_trade ToLower stub args).2
      [tsArg, u]).2 (ToLower (args.getD 8 [])) =
    { TradeDate := ToLower (args.getD 0 []), ValueDate := ToLower (args.getD 1 []),
      Operation := ToLower (args.getD 2 []), Quantity := 0,
      Security := ToLower (args.getD 4 []), Price := ToLower (args.getD 5 []),
      Counterparty := ToLower (args.getD 6 []), User := ToLower u,
      Timestamp := ToLower (args.getD 8 []), Settled := st, NeedsRevision := 1 } := by
  obtain ⟨a0, a1, a2, a3, a4, a5, a6, a7, a8, a9, a10, rfl⟩ := length_eq_eleven args hlen
  have c0 := hclean 0 (by decide)
  have c1 := hclean 1 (by decide)
  have c2 := hclean 2 (by decide)
  have c4 := hclean 4 (by decide)
  have c5 := hclean 5 (by decide)
  have c6 := hclean 6 (by decide)
  have c7 := hclean 7 (by decide)
  have c8 := hclean 8 (by decide)
  simp only [List.getD_cons_succ, List.getD_cons_zero] at hq hst hnr hkey hsame ⊢
  simp only [List.getD_cons_succ, List.getD_cons_zero] at c0 c1 c2 c4 c5 c6 c7 c8
  rw [create_ok ToLower stub a0 a1 a2 a3 a4 a5 a6 a7 a8 a9 a10 q st nr hq hst hnr (hnf _).2
    (hnf _).1 (hnf _).2]
  simp only
  rw [mark_revision_needed_eq, markTrade_ok _ ToLower _ tsArg u _ hts hu (by simpa using (hnf _).1)
    (by simpa using (hnf _).2)]
  simp only
  have hbefore : tradeAt ((stub.set (ToLower a8) (tradeJSON (ToLower a0) (ToLower a1)
      (ToLower a2) q (ToLower a4) (ToLower a5) (ToLower a6) (ToLower a7) (ToLower a8) st
      nr)).set tradeIndexStr (MarshalStrings ((UnmarshalStrings
        (((stub.set (ToLower a8) (tradeJSON (ToLower a0) (ToLower a1) (ToLower a2) q
          (ToLower a4) (ToLower a5) (ToLower a6) (ToLower a7) (ToLower a8) st nr)).state
            tradeIndexStr).getD [])).append (ToLower a8)))) (ToLower a8) =
      { TradeDate := ToLower a0, ValueDate := ToLower a1, Operation := ToLower a2,
        Quantity := 0, Security := ToLower a4, Price := ToLower a5,
        Counterparty := ToLower a6, User := ToLower a7, Timestamp := ToLower a8,
        Settled := st, NeedsRevision := nr } := by
    unfold tradeAt
    rw [set_state_other _ _ _ _ hkey, set_state_same]
    exact UnmarshalTrade_tradeJSON _ _ _ q _ _ _ _ _ st nr c0 c1 c2 c4 c5 c6 c7 c8
      (Atoi_inIntRange _ _ hst) (Atoi_inIntRange _ _ hnr)
  rw [hsame, hbefore]
  refine ⟨trivial, ?_⟩
  exact tradeAt_set_same _ _ _ ⟨inIntRange_zero, Atoi_inIntRange _ _ hst, inIntRange_one⟩

/-- For arguments whose lower-cased strings hold no double quote, backslash or control
character and whose lower-cased timestamp is not the index key, on a store whose operations
succeed, `create_and_submit_trade` succeeds and the text it leaves under the lower-cased
timestamp parses to an object with the members `tradedate`, `valuedate`, `operation`,
`security`, `price`, `counterparty`, `user`, `timestamp` holding the lower-cased strings,
`quantity` the decimal text of the parsed integer as a number, and `settled`,
`needsrevision` the decimal texts of the parsed integers as strings. -/
theorem create_stores_trade_members (ToLower : GoString → GoString) (stub : ChaincodeStub)
    (args : List GoString) (q st nr : Int) (hlen : args.length = 11)
    (hq : Atoi (args.getD 3 []) = some q) (hst : Atoi (args.getD 9 []) = some st)
    (hnr : Atoi (args.getD 10 []) = some nr) (hclean : CleanTradeArgs ToLower args)
    (hkey : ToLower (args.getD 8 []) ≠ tradeIndexStr) (hnf : stub.NoFaults) :
    (create_and_submit_trade ToLower stub args).1 = Except.ok [] ∧
    parseJSON (((create_and_submit_trade ToLower stub args).2.state
      (ToLower (args.getD 8 []))).getD []) =
      some (JSON.obj (tradeJSONMembers (ToLower (args.getD 0 [])) (ToLower (args.getD 1 []))
        (ToLower (args.getD 2 [])) q (ToLower (args.getD 4 [])) (ToLower (args.getD 5 []))
        (ToLower (args.getD 6 [])) (ToLower (args.getD 7 [])) (ToLower (args.getD 8 [])) st
        nr)) := by
  obtain ⟨a0, a1, a2, a3, a4, a5, a6, a7, a8, a9, a10, rfl⟩ := length_eq_eleven args hlen
  have c0 := hclean 0 (by decide)
  have c1 := hclean 1 (by decide)
  have c2 := hclean 2 (by decide)
  have c4 := hclean 4 (by decide)
  have c5 := hclean 5 (by decide)
  have c6 := hclean 6 (by decide)
  have c7 := hclean 7 (by decide)
  have c8 := hclean 8 (by decide)
  simp only [List.getD_cons_succ, List.getD_cons_zero] at hq hst hnr hkey ⊢
  simp only [List.getD_cons_succ, List.getD_cons_zero] at c0 c1 c2 c4 c5 c6 c7 c8
  rw [create_ok ToLower stub a0 a1 a2 a3 a4 a5 a6 a7 a8 a9 a10 q st nr hq hst hnr (hnf _).2
    (hnf _).1 (hnf _).2]
  refine ⟨rfl, ?_⟩
  simp only
  rw [set_state_other _ _ _ _ hkey, set_state_same]
  exact parseJSON_tradeJSON _ _ _ q _ _ _ _ _ st nr c0 c1 c2 c4 c5 c6 c7 c8

/-- Every store error but one is returned to the caller: a failing write in `init` and in
`write`, a failing read in `read`, a failing read or write of the trade in the three marking
functions, and in `create_and_submit_trade` a failing write of the trade or read of the
index. The write of the index in `create_and_submit_trade` is the exception. -/
theorem store_errors_returned (ToLower : GoString → GoString) (stub : ChaincodeStub)
    (args : List GoString) :
    (stub.putErr "abc".toList ≠ none → (init stub args).1.isError = true) ∧
    (stub.putErr "abc".toList = none → stub.putErr tradeIndexStr ≠ none →
      (init stub args).1.isError = true) ∧
    (stub.putErr (args.getD 0 []) ≠ none → (write stub args).1.isError = true) ∧
    (stub.getErr (args.getD 0 []) ≠ none → (SimpleChaincode.read stub args).1.isError = true) ∧
    (stub.getErr (ToLower (args.getD 0 [])) ≠ none ∨
        stub.putErr (ToLower (args.getD 0 [])) ≠ none →
      (mark_revision_needed ToLower stub args).1.isError = true ∧
      (mark_revised ToLower stub args).1.isError = true ∧
      (enrich_and_settle ToLower stub args).1.isError = true) ∧
    (stub.putErr (ToLower (args.getD 8 [])) ≠ none ∨ stub.getErr tradeIndexStr ≠ none →
      (create_and_submit_trade ToLower stub args).1.isError = true) := by
  refine ⟨?_, ?_, ?_, ?_, ?_, ?_⟩
  · intro h
    obtain ⟨e, he⟩ := Option.ne_none_iff_exists'.1 h
    unfold init
    split_ifs
    · rfl
    · split
      · rfl
      · rw [PutState_error _ _ _ e he]
        rfl
  · intro h1 h2
    obtain ⟨e, he⟩ := Option.ne_none_iff_exists'.1 h2
    unfold init
    split_ifs
    · rfl
    · split
      · rfl
      · rw [PutState_ok _ _ _ h1]
        simp only
        rw [PutState_error _ _ _ e (by simpa using he)]
        rfl
  · intro h
    obtain ⟨e, he⟩ := Option.ne_none_iff_exists'.1 h
    unfold write
    split_ifs
    · rfl
    · simp only
      rw [PutState_error _ _ _ e he]
      rfl
  · intro h
    obtain ⟨e, he⟩ := Option.ne_none_iff_exists'.1 h
    unfold SimpleChaincode.read
    split_ifs
    · rfl
    · simp only [ChaincodeStub.GetState, he]
      rfl
  · intro h
    have key : ∀ (update : Trade → GoString → Trade) (msg : String),
        (markTrade update ToLower stub args msg).1.isError = true := by
      intro update msg
      unfold markTrade
      split_ifs
      · rfl
      · rfl
      · rfl
      · cases hg : stub.getErr (ToLower (args.getD 0 [])) with
        | some e =>
          rw [GetState_error _ _ e hg]
          rfl
        | none =>
          rcases h with h | h
          · exact absurd hg h
          · obtain ⟨e, he⟩ := Option.ne_none_iff_exists'.1 h
            rw [GetState_ok _ _ hg]
            simp only
            rw [PutState_error _ _ _ e he]
            rfl
    rw [mark_revision_needed_eq, mark_revised_eq, enrich_and_settle_eq]
    exact ⟨key _ _, key _ _, key _ _⟩
  · intro h
    unfold create_and_submit_trade
    split_ifs
    · rfl
    · split
      · rfl
      · split
        · rfl
        · split
          · rfl
          · simp only
            cases hp : stub.putErr (ToLower (args.getD 8 [])) with
            | some e =>
              rw [PutState_error _ _ _ e hp]
              rfl
            | none =>
              rcases h with h | h
              · exact absurd hp h
              · obtain ⟨e, he⟩ := Option.ne_none_iff_exists'.1 h
                rw [PutState_ok _ _ _ hp]
                simp only
                rw [GetState_error _ _ e (by simpa using he)]
                rfl

end Ruslan
